import Mathlib

/-!
Verification development for the workflow-translator graph engine
(sis_translate_workflow.py).  The Python functions that the claims are
about are embedded shallowly: the JSON document becomes an association
list of string-keyed nodes, every mutating routine becomes a pure
function returning the updated document, and Python control flow
(dict assignment, `or {}` coercions, `str(None)`, int() parsing of
keys, the worklist pop-from-the-end) is reproduced explicitly.
-/

/-- One entry of next.conditions: lval, op, rval, result.
rval is used by the code only through int(cond.get("rval", -1)), so it is
modelled as an integer. A result is a node id or null. -/
structure Cond where
  lval : String
  op : String
  rval : Int
  result : Option String
  deriving Repr, DecidableEq

/-- One entry of configuration.reasons: an optional numeric id and a title. -/
structure Reason where
  rid : Option Int
  title : String
  deriving Repr, DecidableEq

/-- The next object of a node: an ordered condition list and a default target. -/
structure NodeNext where
  conditions : List Cond
  default : Option String
  deriving Repr, DecidableEq

/-- A workflow node.  id, type, template_id, crumb, configuration.data_name and
configuration.reasons are the fields the engine reads or writes structurally;
labels and the rest of configuration are only ever rewritten textually by the
translator and are collapsed into the opaque field other.  A missing next and
next == null are both modelled as none (the code reads them identically
through the idiom next or empty-dict). -/
structure Node where
  id : String
  type : String
  template_id : String
  crumb : Option String
  dataName : Option String
  reasons : List Reason
  other : String
  next : Option NodeNext
  deriving Repr, DecidableEq

/-- The inner workflow body: starting_node_id (empty string when absent,
matching str(inner.get("starting_node_id") or "")) and the nodes mapping,
kept as an association list in dict insertion order. -/
structure InnerBody where
  starting_node_id : String
  nodes : List (String × Node)
  deriving Repr, DecidableEq

/-- Python dict assignment nodes[k] = v: overwrite the existing entry in
place, else append at the end. -/
def setNode : List (String × Node) → String → Node → List (String × Node)
  | [], k, v => [(k, v)]
  | (k', v') :: rest, k, v =>
    if k' = k then (k, v) :: rest else (k', v') :: setNode rest k v

/-- Python del nodes[k]: remove the entry (keys are unique in a dict, so
removing the first occurrence is faithful). -/
def delNode : List (String × Node) → String → List (String × Node)
  | [], _ => []
  | (k', v') :: rest, k => if k' = k then rest else (k', v') :: delNode rest k

/-- The idiom node.get("next") or {}, view on the conditions list. -/
def nextConds (n : Node) : List Cond :=
  match n.next with
  | none => []
  | some nx => nx.conditions

/-- The idiom node.get("next") or {}, view on the default target. -/
def nextDefault (n : Node) : Option String :=
  match n.next with
  | none => none
  | some nx => nx.default

/-- The successor slots of a node in traversal order: each condition's
result in list order, then the default. -/
def successors (n : Node) : List (Option String) :=
  (nextConds n).map (fun c => c.result) ++ [nextDefault n]

/-- Python str() applied to an optional id: str(None) is the string None. -/
def strOfOptId : Option String → String
  | none => "None"
  | some s => s

/-- Number of successor slots of every node entry whose key is not yet in
the visited order; used only to size the walker's fuel. -/
def succCount (nodes : List (String × Node)) (order : List String) : Nat :=
  ((nodes.filter (fun p => ¬ p.1 ∈ order)).map
    (fun p => (successors p.2).length)).sum

/-- Worklist form of the recursive depth-first walk of walk_subgraph.
The pending list is the continuation of the recursion: processing
some nid pushes the successors of nid in front, so conditions are
explored in order before the default, exactly as the nested dfs calls do.
Fuel decreases once per processed pending entry; walkFuel below is enough
for the recursion to run to completion. -/
def walkAux (nodes : List (String × Node)) :
    Nat → List String → List (Option String) → List String
  | 0, order, _ => order
  | _ + 1, order, [] => order
  | fuel + 1, order, none :: pending => walkAux nodes fuel order pending
  | fuel + 1, order, some nid :: pending =>
    if nid ∈ order then walkAux nodes fuel order pending
    else
      match List.lookup nid nodes with
      | none => walkAux nodes fuel order pending
      | some node => walkAux nodes fuel (order ++ [nid]) (successors node ++ pending)

/-- Sufficient fuel for a walk that starts with an empty visited order:
one step for the initial pending entry plus one step per successor slot in
the whole document. -/
def walkFuel (nodes : List (String × Node)) : Nat :=
  succCount nodes [] + 1

/-- walk_subgraph: deterministic DFS order of the subgraph reachable from
start_id.  The visited set of the Python function is exactly the set of
elements of the returned order and is not duplicated here. -/
def walk_subgraph (inner : InnerBody) (startId : String) : List String :=
  walkAux inner.nodes (walkFuel inner.nodes) [] [some startId]

/-- Per-node signature entries of compute_shape_signature, in walk order:
for each id, the node's template_id and (number of conditions, has-default
as 0/1).  The direct dict indexing inner["nodes"][nid] of the source is
modelled by an Option-valued lookup: the result is none exactly when that
indexing would raise. -/
def sigEntries (nodes : List (String × Node)) :
    List String → Option (List (String × (Nat × Nat)))
  | [] => some []
  | nid :: rest =>
    match List.lookup nid nodes with
    | none => none
    | some node =>
      match sigEntries nodes rest with
      | none => none
      | some tl =>
        some ((node.template_id,
          ((nextConds node).length,
            if (nextDefault node).isSome then 1 else 0)) :: tl)

/-- compute_shape_signature: template_id sequence in DFS order plus, for
each node in that order, (number of conditions, has-default as 0/1). -/
def computeShapeSignature (inner : InnerBody) (startId : String) :
    Option (List String × List (Nat × Nat)) :=
  match sigEntries inner.nodes (walk_subgraph inner startId) with
  | none => none
  | some l => some (l.map Prod.fst, l.map Prod.snd)

/-- Decimal digit character, as Python's str(int) produces. -/
def digitCh (d : Nat) : Char := Char.ofNat (48 + d)

/-- Little-endian decimal digits of n, with fuel (n+1 always suffices). -/
def natDigitsRev (fuel n : Nat) : List Char :=
  match fuel with
  | 0 => []
  | f + 1 => if n < 10 then [digitCh n] else digitCh (n % 10) :: natDigitsRev f (n / 10)

/-- Decimal rendering of a natural number: the model of Python str(n) for
n at least 0. -/
def natRepr (n : Nat) : String := ⟨(natDigitsRev (n + 1) n).reverse⟩

/-- Python str(i) for an arbitrary integer. -/
def intRepr (i : Int) : String :=
  if i < 0 then "-" ++ natRepr i.natAbs else natRepr i.toNat

/-- Characters Python int() strips from both ends of its argument. -/
def isPySpace (c : Char) : Bool :=
  c = ' ' ∨ c = '\t' ∨ c = '\n' ∨ c = '\r'

/-- ASCII decimal digit test. -/
def isDigitCh (c : Char) : Bool := 48 ≤ c.toNat ∧ c.toNat ≤ 57

/-- Value of an ASCII digit character. -/
def digitVal (c : Char) : Nat := c.toNat - 48

/-- Digit accumulator of the int() model: after a first digit, further
digits extend the value and a single underscore may separate two digits
(Python 3 literal grouping). -/
def pyDigitsGo (acc : Nat) : List Char → Option Nat
  | [] => some acc
  | c :: cs =>
    if c = '_' then
      match cs with
      | [] => none
      | c2 :: cs2 =>
        if isDigitCh c2 then pyDigitsGo (acc * 10 + digitVal c2) cs2 else none
    else if isDigitCh c then pyDigitsGo (acc * 10 + digitVal c) cs else none

/-- A nonempty digit run with optional internal grouping underscores. -/
def pyDigits : List Char → Option Nat
  | [] => none
  | c :: cs => if isDigitCh c then pyDigitsGo (digitVal c) cs else none

/-- Model of Python int(str(k)) on a string key: strip surrounding
whitespace, allow one sign, then a digit run; none models ValueError.
(Non-ASCII decimals accepted by CPython are not modelled; document keys
are ASCII.) -/
def pyIntOfStr (s : String) : Option Int :=
  match ((s.data.dropWhile isPySpace).reverse.dropWhile isPySpace).reverse with
  | [] => none
  | c :: rest =>
    if c = '-' then (pyDigits rest).map (fun n => -(n : Int))
    else if c = '+' then (pyDigits rest).map (fun n => (n : Int))
    else (pyDigits (c :: rest)).map (fun n => (n : Int))

/-- max_node_id: maximum of int(str(k)) over all node keys that parse,
starting from 0. -/
def max_node_id (inner : InnerBody) : Int :=
  inner.nodes.foldl
    (fun m p =>
      match pyIntOfStr p.1 with
      | some v => max m v
      | none => m) 0

/-- First pass of clone_subgraph: walk the order, allocate str(next_id) for
each visited node, record the old-to-new pair, and insert a deep copy of the
node (same content, id field set to the new id) under the new id.  The copy
is read from the live mapping, as the source does; the lookup cannot fail
(walk orders contain only keys, and keys are never removed here), so the
unreachable KeyError branch is a skip. -/
def clonePass1 :
    List String → Int → List (String × Node) → List (String × String) →
    List (String × Node) × List (String × String)
  | [], _, nodes, acc => (nodes, acc)
  | oldId :: rest, nextId, nodes, acc =>
    let newId := intRepr nextId
    match List.lookup oldId nodes with
    | none => clonePass1 rest (nextId + 1) nodes (acc ++ [(oldId, newId)])
    | some node =>
      clonePass1 rest (nextId + 1)
        (setNode nodes newId { node with id := newId })
        (acc ++ [(oldId, newId)])

/-- Reference rewriting of the clone's second pass: every condition result
and the default that occur as keys of the mapping are replaced by their
mapped id; other references are left untouched.  A node without a next
dict is left as is. -/
def rewriteRefs (mapping : List (String × String)) (n : Node) : Node :=
  match n.next with
  | none => n
  | some nx =>
    { n with next := some (
      { conditions := nx.conditions.map (fun c =>
          match c.result with
          | none => c
          | some r =>
            match List.lookup r mapping with
            | some nr => { c with result := some nr }
            | none => c),
        default :=
          match nx.default with
          | none => none
          | some d =>
            match List.lookup d mapping with
            | some nd => some nd
            | none => some d } : NodeNext) }

/-- Second pass of clone_subgraph: fix the next pointers of every cloned
node within the cloned set. -/
def clonePass2 (mapping : List (String × String))
    (nodes : List (String × Node)) : List (String × Node) :=
  mapping.foldl (fun nodes p =>
    match List.lookup p.2 nodes with
    | none => nodes
    | some nd => setNode nodes p.2 (rewriteRefs mapping nd)) nodes

/-- Result of clone_subgraph: mutated body, old-to-new mapping in walker
order, and the new start id; newStart is none exactly when the final
old_to_new[str(start_id)] indexing would raise KeyError. -/
structure CloneResult where
  body : InnerBody
  mapping : List (String × String)
  newStart : Option String
  deriving Repr, DecidableEq

/-- clone_subgraph: clone the subgraph reachable from start_id with fresh
ids starting at max_node_id + 1. -/
def clone_subgraph (inner : InnerBody) (startId : String) : CloneResult :=
  let order := walk_subgraph inner startId
  let r1 := clonePass1 order (max_node_id inner + 1) inner.nodes []
  let nodes2 := clonePass2 r1.2 r1.1
  ⟨{ inner with nodes := nodes2 }, r1.2, List.lookup startId r1.2⟩

/-- find_language_page: first node in dict order of type page whose
configuration.data_name is language; none models the raised ValueError. -/
def find_language_page (inner : InnerBody) : Option (String × Node) :=
  inner.nodes.find? (fun p => p.2.type = "page" ∧ p.2.dataName = some "language")

/-- validate_inner: referential and structural checks over the whole
document, returning (errors, warnings) in iteration order. -/
def validate_inner (inner : InnerBody) : List String × List String :=
  if inner.nodes = [] then (["Inner body missing or empty nodes"], [])
  else
    let startErrs :=
      if inner.starting_node_id ≠ "" ∧
          List.lookup inner.starting_node_id inner.nodes = none then
        ["starting_node_id " ++ inner.starting_node_id ++ " not found in nodes"]
      else []
    let perNode := inner.nodes.foldl
      (fun (acc : List String × List String) p =>
        let nid := p.1
        let node := p.2
        let warns :=
          if node.id ≠ nid then
            acc.2 ++ ["Node key/id mismatch: key=" ++ nid ++ " id=" ++ node.id]
          else acc.2
        let errs := acc.1 ++ (nextConds node).foldl
          (fun es c =>
            match c.result with
            | none => es
            | some r =>
              if List.lookup r inner.nodes = none then
                es ++ ["Node " ++ nid ++ " condition result -> " ++ r ++ " not found"]
              else es) []
        let errs :=
          match nextDefault node with
          | none => errs
          | some d =>
            if List.lookup d inner.nodes = none then
              errs ++ ["Node " ++ nid ++ " default -> " ++ d ++ " not found"]
            else errs
        let errs :=
          if node.template_id ≠ "thanks" ∧ nextDefault node = none then
            errs ++ ["Node " ++ nid ++ " (template_id=" ++ node.template_id ++
              ") must have non-null next.default"]
          else errs
        (errs, warns))
      (startErrs, [])
    let warns :=
      match find_language_page inner with
      | some _ => perNode.2
      | none => perNode.2 ++
          ["Language page with configuration.data_name == language not found"]
    (perNode.1, warns)

/-- Observable actions of the tail of process_workflow_pipeline, after the
graph transformation: print the summary, then in write mode either abort on
validation errors or persist (put_workflow), with self-test skipping the
actual PUT. -/
inductive PipelineEvent where
  | printSummary
  | validationAbort
  | putWorkflow
  deriving Repr, DecidableEq

/-- Event trace of process_workflow_pipeline from the summary print onward,
on the already-mutated inner body. -/
def processWorkflowPipelineEvents (dryRun selfTest : Bool)
    (inner : InnerBody) : List PipelineEvent :=
  [PipelineEvent.printSummary] ++
  (if dryRun then []
   else
     if (validate_inner inner).1 ≠ [] then [PipelineEvent.validationAbort]
     else if selfTest then []
     else [PipelineEvent.putWorkflow])

/-- rid_to_title: dict comprehension over configuration.reasons keyed by
int(r.get("id")), skipping reasons without an id; later entries win, hence
the reverse before the first-match lookup. -/
def ridToTitle (reasons : List Reason) (rid : Int) : Option String :=
  List.lookup rid
    ((reasons.filterMap (fun r => r.rid.map (fun i => (i, r.title)))).reverse)

/-- Number of ids a visit pushes onto the propagation stack: one per
non-null condition result plus one for a non-null default. -/
def pushCount (n : Node) : Nat :=
  ((nextConds n).filterMap (fun c => c.result)).length +
    (match nextDefault n with | none => 0 | some _ => 1)

/-- Fuel for one propagate_crumb run: one step for the seed plus one per
id any visit can push; ample because the seen set admits each key at most
once. -/
def propFuel (nodes : List (String × Node)) : Nat :=
  (nodes.map (fun p => pushCount p.2)).sum + 1

/-- propagate_crumb's worklist (stack with pop from the end): skip ids
already seen, missing from the document, or outside the cloned branch's
mapped values; otherwise mark seen, set the crumb unless the node is a
visitreason or already carries a truthy crumb, and push the condition
results in order followed by the default (reversed here because the head
of the Lean list is the popped end of the Python stack).  Returns the
updated nodes and the seen set. -/
def propagateCrumbAux (mappedVals : List String) (crumbValue : String) :
    Nat → List (String × Node) → List String → List String →
    List (String × Node) × List String
  | 0, nodes, seen, _ => (nodes, seen)
  | _ + 1, nodes, seen, [] => (nodes, seen)
  | fuel + 1, nodes, seen, nid :: stack =>
    if nid ∈ seen ∨ ¬ nid ∈ mappedVals then
      propagateCrumbAux mappedVals crumbValue fuel nodes seen stack
    else
      match List.lookup nid nodes with
      | none => propagateCrumbAux mappedVals crumbValue fuel nodes seen stack
      | some n =>
        let seen' := nid :: seen
        let nodes' :=
          if n.template_id = "visitreason" then nodes
          else if n.crumb = none ∨ n.crumb = some "" then
            setNode nodes nid { n with crumb := some crumbValue }
          else nodes
        let pushes := ((nextConds n).filterMap (fun c => c.result)) ++
          (match nextDefault n with | none => [] | some d => [d])
        propagateCrumbAux mappedVals crumbValue fuel nodes' seen' (pushes.reverse ++ stack)

/-- propagate_crumb: worklist propagation of crumbValue starting from one
seed id, restricted to the mapped values of the current branch. -/
def propagate_crumb (mapping : List (String × String)) (crumbValue : String)
    (nodes : List (String × Node)) (fromId : String) :
    List (String × Node) × List String :=
  propagateCrumbAux (mapping.map Prod.snd) crumbValue (propFuel nodes) nodes [] [fromId]

/-- One iteration of the force-correct loop of
adjust_cloned_branch_for_end_thanks_and_crumbs: thanks nodes get
next = null unconditionally; every other mapped node gets its default
recomputed from the template's own default through the mapping, with the
cycle guard falling back to the very same mapped template default. -/
def forceCorrectStep (mapping : List (String × String)) (templateStartId : String)
    (enDefaultMap : List (String × Option String)) (nodes : List (String × Node))
    (oldId newId : String) : List (String × Node) :=
  match List.lookup newId nodes with
  | none => nodes
  | some nd =>
    if nd.template_id = "thanks" then setNode nodes newId { nd with next := none }
    else
      let enDefault : Option String := (List.lookup oldId enDefaultMap).join
      let nx0 : NodeNext :=
        match nd.next with
        | some nx => nx
        | none => ⟨[], none⟩
      let nx1 : NodeNext :=
        match enDefault with
        | some d =>
          match List.lookup d mapping with
          | some mappedNew => { nx0 with default := some mappedNew }
          | none => nx0
        | none => nx0
      let nx2 : NodeNext :=
        if strOfOptId nx1.default = newId ∨
            strOfOptId nx1.default = (List.lookup templateStartId mapping).getD "" ∨
            strOfOptId nx1.default = templateStartId then
          match enDefault with
          | some d =>
            match List.lookup d mapping with
            | some m2 => { nx1 with default := some m2 }
            | none => nx1
          | none => nx1
        else nx1
      setNode nodes newId { nd with next := some nx2 }

/-- Direct crumb assignment on one condition target of a visitreason node:
the target's crumb is overwritten with the selected reason's title, or kept
when the rval has no title. -/
def setCondTargetCrumb (reasons : List Reason) (nodes : List (String × Node))
    (c : Cond) : List (String × Node) :=
  match c.result with
  | none => nodes
  | some t =>
    match List.lookup t nodes with
    | none => nodes
    | some tn =>
      setNode nodes t { tn with crumb :=
        (match ridToTitle reasons c.rval with
         | some ti => some ti
         | none => tn.crumb) }

/-- Worklist propagation from one condition target of a visitreason node,
with the selected reason's title (falling back to the language label). -/
def propagateCondTarget (mapping : List (String × String)) (reasons : List Reason)
    (languageLabel : String) (nodes : List (String × Node)) (c : Cond) :
    List (String × Node) :=
  match c.result with
  | none => nodes
  | some t =>
    (propagate_crumb mapping
      (match ridToTitle reasons c.rval with
       | some ti => ti
       | none => languageLabel) nodes t).1

/-- Body of one visitreason iteration of
adjust_cloned_branch_for_end_thanks_and_crumbs: set the visitreason node's
crumb to the language label, overwrite each condition target's crumb with
the selected reason title (keeping the target's own crumb when the rval
has no title), then propagate per condition target the title (falling back
to the language label) and finally the language label along the default
edge. -/
def visitreasonApply (mapping : List (String × String)) (languageLabel : String)
    (nodes : List (String × Node)) (newId : String) (node0 : Node) :
    List (String × Node) :=
  let node := { node0 with crumb := some languageLabel }
  let nodes1 := setNode nodes newId node
  let nodes2 := (nextConds node).foldl (setCondTargetCrumb node.reasons) nodes1
  let nodes3 := (nextConds node).foldl
    (propagateCondTarget mapping node.reasons languageLabel) nodes2
  match nextDefault node with
  | none => nodes3
  | some d => (propagate_crumb mapping languageLabel nodes3 d).1

def adjustVisitreasonStep (mapping : List (String × String))
    (languageLabel : String) (nodes : List (String × Node)) (newId : String) :
    List (String × Node) :=
  match List.lookup newId nodes with
  | none => nodes
  | some node =>
    if node.template_id = "visitreason" then
      visitreasonApply mapping languageLabel nodes newId node
    else nodes

/-- First step of adjust_cloned_branch_for_end_thanks_and_crumbs: set the
crumb of the branch's (remapped) start node to the language label, when the
mapped id is truthy and present. -/
def startCrumbStage (mapping : List (String × String))
    (templateStartId languageLabel : String)
    (nodes : List (String × Node)) : List (String × Node) :=
  match List.lookup templateStartId mapping with
  | some startNewId =>
    if startNewId ≠ "" then
      match List.lookup startNewId nodes with
      | some nd => setNode nodes startNewId { nd with crumb := some languageLabel }
      | none => nodes
    else nodes
  | none => nodes

/-- The english_default_map of adjust_cloned_branch_for_end_thanks_and_crumbs:
for each template (old) id of the mapping that is a node, its template
default edge, read before any default is rewritten. -/
def enDefaultMapOf (mapping : List (String × String))
    (nodes : List (String × Node)) : List (String × Option String) :=
  mapping.filterMap (fun p =>
    (List.lookup p.1 nodes).map (fun n => (p.1, nextDefault n)))

/-- The force-correct loop of adjust_cloned_branch_for_end_thanks_and_crumbs
over every mapped pair, with the english default map computed up front. -/
def forceCorrectStage (mapping : List (String × String)) (templateStartId : String)
    (nodes : List (String × Node)) : List (String × Node) :=
  mapping.foldl
    (fun nds p =>
      forceCorrectStep mapping templateStartId (enDefaultMapOf mapping nodes) nds p.1 p.2)
    nodes

/-- The visitreason loop of adjust_cloned_branch_for_end_thanks_and_crumbs
over every mapped pair. -/
def visitreasonStage (mapping : List (String × String)) (languageLabel : String)
    (nodes : List (String × Node)) : List (String × Node) :=
  mapping.foldl (fun nds p => adjustVisitreasonStep mapping languageLabel nds p.2) nodes

/-- adjust_cloned_branch_for_end_thanks_and_crumbs: start crumb, thanks
and default force-correction, then visitreason crumb propagation.  The
existing_end_thanks_id argument is accepted and ignored, as in the source
(no redirection to an existing end thanks is performed); the new_to_old
reverse map and the english_is_thanks set of the source are dead values
and are not materialised. -/
def adjust_cloned_branch (inner : InnerBody) (mapping : List (String × String))
    (templateStartId : String) (languageLabel : String)
    (_existingEndThanksId : Option String) : InnerBody :=
  let adjusted := visitreasonStage mapping languageLabel
    (forceCorrectStage mapping templateStartId
      (startCrumbStage mapping templateStartId languageLabel inner.nodes))
  { inner with nodes := adjusted }

/-- Result of grafting one language branch: the mutated body and the
corrected old-to-new mapping (template entry mapped to the pre-existing
start id). -/
structure GraftResult where
  body : InnerBody
  mapping : List (String × String)
  deriving Repr, DecidableEq

/-- The splice of process_languages: when both the pre-existing entry and
the freshly cloned entry are nodes, replace the pre-existing entry's
content by the cloned entry's content while preserving its id field,
delete the cloned entry, and point the mapping's image of the template
entry at the pre-existing id. -/
def spliceEntry (body : InnerBody) (existingStart newStart : String)
    (mapping : List (String × String)) : InnerBody × List (String × String) :=
  match List.lookup existingStart body.nodes, List.lookup newStart body.nodes with
  | some existingNode, some clonedStart =>
    let spliced : Node := { clonedStart with id := existingNode.id }
    let splicedNodes := delNode (setNode body.nodes existingStart spliced) newStart
    ({ body with nodes := splicedNodes },
     mapping.map (fun q => (q.1, if q.2 = newStart then existingStart else q.2)))
  | _, _ => (body, mapping)

/-- The translation loop of process_languages over the mapped nodes:
translate_node_strings rewrites only labels and configuration text, which
the embedding keeps in the opaque content field. -/
def translateNodes (tr : Node → String) (mapping : List (String × String))
    (nodes : List (String × Node)) : List (String × Node) :=
  mapping.foldl
    (fun nodes q =>
      match List.lookup q.2 nodes with
      | none => nodes
      | some nd => setNode nodes q.2 { nd with other := tr nd }) nodes

/-- The graft block of process_languages for one language whose existing
start id is wired (lines guarded by existing_start being a key of nodes):
capture the existing end thanks, clone the template subgraph, copy the
cloned entry's content onto the pre-existing entry (preserving its id
field), delete the now-redundant cloned entry, correct the mapping, run
adjust_cloned_branch_for_end_thanks_and_crumbs, and translate the mapped
nodes' text (modelled by tr rewriting only the opaque textual content).
none models the KeyError abort when the template start is not a node. -/
def graft_branch (inner : InnerBody) (englishStart existingStart : String)
    (label : String) (tr : Node → String) : Option GraftResult :=
  let existingEndThanksId : Option String :=
    (walk_subgraph inner existingStart).reverse.find? (fun nid =>
      match List.lookup nid inner.nodes with
      | some nd => nd.template_id = "thanks"
      | none => false)
  let res := clone_subgraph inner englishStart
  match res.newStart with
  | none => none
  | some newStart =>
    let p := spliceEntry res.body existingStart newStart res.mapping
    let body2 := adjust_cloned_branch p.1 p.2 englishStart label existingEndThanksId
    some ⟨{ body2 with nodes := translateNodes tr p.2 body2.nodes }, p.2⟩

/-- Reachability in the document: the start when it exists, plus any
existing node referenced from a successor slot of a reachable node. -/
inductive ReachableFrom (inner : InnerBody) (s : String) : String → Prop
  | start : (List.lookup s inner.nodes).isSome → ReachableFrom inner s s
  | step {a t : String} {n : Node} : ReachableFrom inner s a →
      List.lookup a inner.nodes = some n → some t ∈ successors n →
      (List.lookup t inner.nodes).isSome → ReachableFrom inner s t

/-- Keys of the node mapping, in insertion order. -/
def nodeKeys (nodes : List (String × Node)) : List String := nodes.map Prod.fst

/-- Big-endian decimal digit list of a natural number. -/
def digitsOf (n : Nat) : List Char := (natDigitsRev (n + 1) n).reverse

/-- The walker's termination measure: pending entries still to pop plus
successor slots of entries not yet visited. -/
def walkPhi (nodes : List (String × Node)) (order : List String)
    (pending : List (Option String)) : Nat :=
  pending.length + succCount nodes order

/-- Every non-null successor slot of every node of the order resolves to an
existing node (the validator's dangling-reference invariant, restricted to
a branch). -/
def noDangling (nodes : List (String × Node)) (order : List String) : Bool :=
  order.all (fun o =>
    match List.lookup o nodes with
    | none => true
    | some n => (successors n).all (fun t =>
        match t with
        | none => true
        | some t => (List.lookup t nodes).isSome))

/-- Every thanks-tagged node of the order is terminal: no conditions and no
default (the data-model invariant that terminal nodes never continue). -/
def thanksTerminal (nodes : List (String × Node)) (order : List String) : Bool :=
  order.all (fun o =>
    match List.lookup o nodes with
    | none => true
    | some n =>
      if n.template_id = "thanks" then
        (nextConds n).isEmpty && (nextDefault n).isNone
      else true)

/-- Structure-relevant part of a node entry: key, template tag and wiring.
Crumb-only and text-only rewrites preserve this view pointwise. -/
def sameStruct (p q : String × Node) : Prop :=
  p.1 = q.1 ∧ p.2.template_id = q.2.template_id ∧ p.2.next = q.2.next

/-- Node builder for the concrete documents used in the theorems below. -/
def mkNode (i : String) (tid : String) (nx : Option NodeNext) : Node :=
  ⟨i, "page", tid, none, none, [], "", nx⟩

/-- A well-formed two-node template branch (welcome then thanks) plus a
stale branch entry node 5, as in the specification's worked example. -/
def docGood : InnerBody :=
  ⟨"1",
   [("1", { mkNode "1" "choice"
        (some ⟨[⟨"reason_id", "==", 1, some "2"⟩, ⟨"reason_id", "==", 2, some "5"⟩],
          some "2"⟩) with dataName := some "language" }),
    ("2", mkNode "2" "welcome" (some ⟨[], some "3"⟩)),
    ("3", mkNode "3" "thanks" none),
    ("5", mkNode "5" "stale" (some ⟨[], some "3"⟩))]⟩

/-- A document with a dangling default, rejected by the validator. -/
def docBad : InnerBody :=
  ⟨"2", [("2", mkNode "2" "welcome" (some ⟨[], some "7"⟩))]⟩

/-- A template whose thanks-tagged entry still carries an outgoing default:
grafting forces next = null on the copy, changing the branch shape. -/
def docThanksNext : InnerBody :=
  ⟨"1",
   [("2", mkNode "2" "thanks" (some ⟨[], some "3"⟩)),
    ("3", mkNode "3" "welcome" (some ⟨[], none⟩)),
    ("5", mkNode "5" "stale" (some ⟨[], none⟩))]⟩

/-- A template consisting of a single self-referential non-terminal node,
plus a stale branch entry. -/
def docSelfLoop : InnerBody :=
  ⟨"1",
   [("2", mkNode "2" "welcome" (some ⟨[], some "2"⟩)),
    ("5", mkNode "5" "stale" (some ⟨[], none⟩))]⟩

/-- A single-node document whose node's default points to itself. -/
def docLoopOnly : InnerBody :=
  ⟨"1", [("1", mkNode "1" "welcome" (some ⟨[], some "1"⟩))]⟩

/-- A template with a sub-choice (visitreason) node: one condition (Staff)
to node 3 and a default edge to node 4 that already carries crumb Old. -/
def docCrumb : InnerBody :=
  ⟨"1",
   [("2", { mkNode "2" "visitreason"
        (some ⟨[⟨"reason_id", "==", 1, some "3"⟩], some "4"⟩) with
        reasons := [⟨some 1, "Staff"⟩] }),
    ("3", mkNode "3" "welcome" (some ⟨[], none⟩)),
    ("4", { mkNode "4" "welcome" (some ⟨[], none⟩) with crumb := some "Old" }),
    ("9", mkNode "9" "stale" (some ⟨[], none⟩))]⟩

/-- The fresh ids the cloner allocates: str(base), str(base+1), and so on,
one per cloned node. -/
def freshIds (base : Int) : Nat → List String
  | 0 => []
  | n + 1 => intRepr base :: freshIds (base + 1) n

/-- Invariant of the walker: every existing successor of an already
visited node is itself visited or still pending. -/
def walkInv (nodes : List (String × Node)) (order : List String)
    (pending : List (Option String)) : Prop :=
  ∀ nid ∈ order, ∀ n, List.lookup nid nodes = some n →
    ∀ t, some t ∈ successors n → (List.lookup t nodes).isSome = true →
      t ∈ order ∨ some t ∈ pending

/-- Equality of the structure-relevant part of an optional node: same
presence, template tag and wiring.  Crumb and text rewrites preserve it. -/
def structEq : Option Node → Option Node → Prop
  | none, none => True
  | some n, some m => n.id = m.id ∧ n.template_id = m.template_id ∧ n.next = m.next
  | _, _ => False

/-- Pointwise structural equality of two node mappings. -/
def nodesStructEq (x y : List (String × Node)) : Prop :=
  ∀ k, structEq (List.lookup k x) (List.lookup k y)

/-- The old-to-new pairs clone_subgraph builds: walker order zipped with
the fresh ids. -/
def cloneZip (inner : InnerBody) (s : String) : List (String × String) :=
  (walk_subgraph inner s).zip
    (freshIds (max_node_id inner + 1) (walk_subgraph inner s).length)

/-- The corrected mapping after the splice: the cloned entry id is replaced
by the pre-existing entry id. -/
def graftMapping (inner : InnerBody) (s x ns : String) : List (String × String) :=
  (cloneZip inner s).map (fun q => (q.1, if q.2 = ns then x else q.2))

/-- Correspondence between an optional successor slot of the template and
the matching slot of the grafted copy: both absent, or a template id paired
with its mapping image, or the template start paired with the deleted
cloned-start id. -/
def graftRelOpt (O : List String) (s ns : String) (mp : List (String × String)) :
    Option String → Option String → Prop
  | none, none => True
  | some t, some u => t ∈ O ∧ (List.lookup t mp = some u ∨ (t = s ∧ u = ns))
  | _, _ => False

theorem nodeKeys_cons (p : String × Node) (rest : List (String × Node)) :
    nodeKeys (p :: rest) = p.1 :: nodeKeys rest := rfl

theorem nodeKeys_append (a b : List (String × Node)) :
    nodeKeys (a ++ b) = nodeKeys a ++ nodeKeys b := by
  simp [nodeKeys]

theorem lookup_isSome_iff (nodes : List (String × Node)) (k : String) :
    (List.lookup k nodes).isSome = true ↔ k ∈ nodeKeys nodes := by
  induction nodes with
  | nil => simp [nodeKeys]
  | cons p rest ih =>
    obtain ⟨k', v'⟩ := p
    by_cases h : k = k'
    · subst h
      simp [nodeKeys_cons, List.lookup]
    · have hb : (k == k') = false := beq_eq_false_iff_ne.mpr h
      rw [nodeKeys_cons]
      simp only [List.lookup, hb, List.mem_cons]
      rw [ih]
      constructor
      · exact fun hh => Or.inr hh
      · rintro (hh | hh)
        · exact absurd hh h
        · exact hh

theorem lookup_eq_none_iff (nodes : List (String × Node)) (k : String) :
    List.lookup k nodes = none ↔ ¬ k ∈ nodeKeys nodes := by
  rw [← lookup_isSome_iff]
  cases List.lookup k nodes <;> simp

theorem lookup_setNode_self (nodes : List (String × Node)) (k : String) (v : Node) :
    List.lookup k (setNode nodes k v) = some v := by
  induction nodes with
  | nil => simp [setNode, List.lookup]
  | cons p rest ih =>
    obtain ⟨k', v'⟩ := p
    by_cases h : k' = k
    · simp [setNode, h, List.lookup]
    · have hb : (k == k') = false := beq_eq_false_iff_ne.mpr (Ne.symm h)
      simp [setNode, h, List.lookup, hb, ih]

theorem lookup_setNode_ne (nodes : List (String × Node)) {k k' : String} (v : Node)
    (h : k' ≠ k) : List.lookup k' (setNode nodes k v) = List.lookup k' nodes := by
  have hb : (k' == k) = false := beq_eq_false_iff_ne.mpr h
  induction nodes with
  | nil => simp [setNode, List.lookup, hb]
  | cons p rest ih =>
    obtain ⟨k0, v0⟩ := p
    by_cases h0 : k0 = k
    · subst h0
      simp [setNode, List.lookup, hb, ih]
    · simp [setNode, h0, List.lookup, ih]

theorem setNode_of_not_mem (nodes : List (String × Node)) {k : String} (v : Node)
    (h : ¬ k ∈ nodeKeys nodes) : setNode nodes k v = nodes ++ [(k, v)] := by
  induction nodes with
  | nil => simp [setNode]
  | cons p rest ih =>
    obtain ⟨k0, v0⟩ := p
    simp [nodeKeys] at h
    push_neg at h
    have h1 : ¬ k0 = k := fun hh => h.1 hh.symm
    simp [setNode, h1, ih (by simp [nodeKeys]; exact fun x hx => h.2 x hx)]

theorem keys_setNode_of_mem (nodes : List (String × Node)) {k : String} (v : Node)
    (h : k ∈ nodeKeys nodes) : nodeKeys (setNode nodes k v) = nodeKeys nodes := by
  induction nodes with
  | nil => simp [nodeKeys] at h
  | cons p rest ih =>
    obtain ⟨k0, v0⟩ := p
    by_cases h0 : k0 = k
    · subst h0; simp [setNode, nodeKeys]
    · have h' : k ∈ nodeKeys rest := by
        rw [nodeKeys_cons] at h
        rcases List.mem_cons.mp h with h | h
        · exact absurd h.symm h0
        · exact h
      simp only [setNode, h0, if_false, nodeKeys_cons]
      rw [ih h']

theorem lookup_append (a b : List (String × Node)) (k : String) :
    List.lookup k (a ++ b) =
      match List.lookup k a with
      | some v => some v
      | none => List.lookup k b := by
  induction a with
  | nil => simp [List.lookup]
  | cons p rest ih =>
    obtain ⟨k0, v0⟩ := p
    by_cases h : k = k0
    · subst h; simp [List.lookup]
    · have hb : (k == k0) = false := beq_eq_false_iff_ne.mpr h
      simp [List.lookup, hb, ih]

theorem lookup_append_left {a : List (String × Node)} (b : List (String × Node))
    {k : String} (h : (List.lookup k a).isSome) :
    List.lookup k (a ++ b) = List.lookup k a := by
  rw [lookup_append]
  cases hc : List.lookup k a with
  | none => rw [hc] at h; simp at h
  | some v => simp

theorem lookup_append_right {a : List (String × Node)} (b : List (String × Node))
    {k : String} (h : ¬ k ∈ nodeKeys a) :
    List.lookup k (a ++ b) = List.lookup k b := by
  rw [lookup_append, (lookup_eq_none_iff a k).2 h]

theorem lookup_delNode_ne (nodes : List (String × Node)) {k k' : String}
    (h : k' ≠ k) : List.lookup k' (delNode nodes k) = List.lookup k' nodes := by
  induction nodes with
  | nil => simp [delNode]
  | cons p rest ih =>
    obtain ⟨k0, v0⟩ := p
    by_cases h0 : k0 = k
    · subst h0
      have hb : (k' == k0) = false := beq_eq_false_iff_ne.mpr h
      simp [delNode, List.lookup, hb]
    · simp [delNode, h0, List.lookup, ih]

theorem delNode_append_left (a b : List (String × Node)) {k : String}
    (h : ¬ k ∈ nodeKeys a) : delNode (a ++ b) k = a ++ delNode b k := by
  induction a with
  | nil => simp
  | cons p rest ih =>
    obtain ⟨k0, v0⟩ := p
    simp [nodeKeys] at h
    push_neg at h
    have h1 : ¬ k0 = k := fun hh => h.1 hh.symm
    simp [delNode, h1, ih (by simp [nodeKeys]; exact fun x hx => h.2 x hx)]

theorem delNode_cons_self (rest : List (String × Node)) (k : String) (v : Node) :
    delNode ((k, v) :: rest) k = rest := by
  simp [delNode]

theorem natDigitsRev_fuel (f g n : Nat) (hf : n < f) (hg : n < g) :
    natDigitsRev f n = natDigitsRev g n := by
  induction f generalizing g n with
  | zero => omega
  | succ f ih =>
    cases g with
    | zero => omega
    | succ g =>
      simp only [natDigitsRev]
      by_cases h : n < 10
      · simp [h]
      · simp only [h, if_false]
        rw [ih g (n / 10) (by omega) (by omega)]

theorem digitsOf_eq (n : Nat) :
    digitsOf n =
      if n < 10 then [digitCh n] else digitsOf (n / 10) ++ [digitCh (n % 10)] := by
  by_cases h : n < 10
  · simp [digitsOf, natDigitsRev, h]
  · have h1 : natDigitsRev (n + 1) n = digitCh (n % 10) :: natDigitsRev n (n / 10) := by
      simp only [natDigitsRev, h, if_false]
    have h2 : natDigitsRev n (n / 10) = natDigitsRev (n / 10 + 1) (n / 10) :=
      natDigitsRev_fuel n (n / 10 + 1) (n / 10) (by omega) (by omega)
    simp only [digitsOf, h1, h2, List.reverse_cons, h, if_false]

theorem digitCh_digit (d : Nat) (h : d < 10) :
    isDigitCh (digitCh d) = true ∧ digitVal (digitCh d) = d := by
  interval_cases d <;> exact ⟨by decide, by decide⟩

theorem digitsOf_digits (n : Nat) : ∀ c ∈ digitsOf n, isDigitCh c = true := by
  induction n using Nat.strong_induction_on with
  | _ n ih =>
    rw [digitsOf_eq]
    by_cases h : n < 10
    · simp only [h, if_true, List.mem_singleton]
      rintro c rfl
      exact (digitCh_digit n h).1
    · simp only [h, if_false]
      intro c hc
      rcases List.mem_append.mp hc with hc | hc
      · exact ih (n / 10) (by omega) c hc
      · rcases List.mem_singleton.mp hc with rfl
        exact (digitCh_digit (n % 10) (by omega)).1

theorem digit_not_underscore {c : Char} (h : isDigitCh c = true) : c ≠ '_' := by
  rintro rfl
  exact absurd h (by decide)

theorem digit_not_space {c : Char} (h : isDigitCh c = true) : isPySpace c = false := by
  by_contra hne
  have hs : isPySpace c = true := by
    cases hx : isPySpace c
    · exact absurd hx hne
    · rfl
  have : c = ' ' ∨ c = '\t' ∨ c = '\n' ∨ c = '\r' := by
    simpa [isPySpace] using hs
  rcases this with rfl | rfl | rfl | rfl <;> exact absurd h (by decide)

theorem digit_not_minus {c : Char} (h : isDigitCh c = true) : c ≠ '-' := by
  rintro rfl
  exact absurd h (by decide)

theorem digit_not_plus {c : Char} (h : isDigitCh c = true) : c ≠ '+' := by
  rintro rfl
  exact absurd h (by decide)

theorem pyDigitsGo_digits (l : List Char) : ∀ acc, (∀ c ∈ l, isDigitCh c = true) →
    pyDigitsGo acc l = some (l.foldl (fun a c => a * 10 + digitVal c) acc) := by
  induction l with
  | nil => intro acc _; simp [pyDigitsGo]
  | cons c cs ih =>
    intro acc h
    have hc : isDigitCh c = true := h c (by simp)
    have hcn : ¬ c = '_' := digit_not_underscore hc
    rw [pyDigitsGo.eq_def]
    simp only [hcn, if_false, hc, if_true, List.foldl_cons]
    exact ih (acc * 10 + digitVal c) (fun c' hc' => h c' (by simp [hc']))

theorem foldl_digitsOf (n : Nat) :
    (digitsOf n).foldl (fun a c => a * 10 + digitVal c) 0 = n := by
  induction n using Nat.strong_induction_on with
  | _ n ih =>
    rw [digitsOf_eq]
    by_cases h : n < 10
    · simp [h, List.foldl, (digitCh_digit n h).2]
    · simp only [h, if_false, List.foldl_append, List.foldl_cons, List.foldl_nil]
      rw [ih (n / 10) (by omega), (digitCh_digit (n % 10) (by omega)).2]
      omega

theorem digitsOf_ne_nil (n : Nat) : digitsOf n ≠ [] := by
  rw [digitsOf_eq]
  by_cases h : n < 10 <;> simp [h]

theorem pyDigits_digitsOf (n : Nat) : pyDigits (digitsOf n) = some n := by
  have hall := digitsOf_digits n
  obtain ⟨c, cs, hcc⟩ := List.exists_cons_of_ne_nil (digitsOf_ne_nil n)
  have hc : isDigitCh c = true := hall c (by rw [hcc]; simp)
  have hgo := pyDigitsGo_digits cs (digitVal c)
    (fun c' h' => hall c' (by rw [hcc]; simp [h']))
  have hfold : (c :: cs).foldl (fun a c => a * 10 + digitVal c) 0 = n := by
    rw [← hcc]; exact foldl_digitsOf n
  simp only [List.foldl_cons, Nat.zero_mul, Nat.zero_add] at hfold
  rw [hcc]
  simp only [pyDigits, hc, if_true]
  rw [hgo, hfold]

theorem natRepr_data (n : Nat) : (natRepr n).data = digitsOf n := rfl

theorem pyIntOfStr_natRepr (n : Nat) : pyIntOfStr (natRepr n) = some (n : Int) := by
  have hall := digitsOf_digits n
  obtain ⟨c, cs, hcc⟩ := List.exists_cons_of_ne_nil (digitsOf_ne_nil n)
  have hc : isDigitCh c = true := hall c (by rw [hcc]; simp)
  have h1 : (natRepr n).data.dropWhile isPySpace = digitsOf n := by
    rw [natRepr_data, hcc, List.dropWhile_cons, digit_not_space hc]
    simp
  have hlast : ∀ d ∈ (digitsOf n).reverse, isPySpace d = false := by
    intro d hd
    exact digit_not_space (hall d (List.mem_reverse.mp hd))
  have h2 : (digitsOf n).reverse.dropWhile isPySpace = (digitsOf n).reverse := by
    cases hr : (digitsOf n).reverse with
    | nil => simp
    | cons d ds =>
      rw [List.dropWhile_cons]
      have : isPySpace d = false := hlast d (by rw [hr]; simp)
      simp [this]
  have hm : ¬ c = '-' := digit_not_minus hc
  have hp : ¬ c = '+' := digit_not_plus hc
  unfold pyIntOfStr
  rw [h1, h2, List.reverse_reverse, hcc]
  simp only [hm, hp, if_false]
  rw [← hcc, pyDigits_digitsOf]
  rfl

theorem foldl_pyMax_ge (l : List (String × Node)) (init : Int) :
    init ≤ l.foldl
      (fun m p => match pyIntOfStr p.1 with | some v => max m v | none => m) init := by
  induction l generalizing init with
  | nil => simp
  | cons p rest ih =>
    simp only [List.foldl_cons]
    refine le_trans ?_ (ih _)
    cases pyIntOfStr p.1 with
    | none => simp
    | some v => simp [le_max_left]

theorem foldl_pyMax_mem (l : List (String × Node)) (init : Int) :
    ∀ p ∈ l, ∀ v, pyIntOfStr p.1 = some v →
      v ≤ l.foldl
        (fun m p => match pyIntOfStr p.1 with | some v => max m v | none => m) init := by
  induction l generalizing init with
  | nil => simp
  | cons q rest ih =>
    intro p hp v hv
    rcases List.mem_cons.mp hp with rfl | hp
    · simp only [List.foldl_cons, hv]
      refine le_trans (le_max_right init v) (foldl_pyMax_ge rest _)
    · exact ih _ p hp v hv

theorem max_node_id_nonneg (inner : InnerBody) : 0 ≤ max_node_id inner :=
  foldl_pyMax_ge inner.nodes 0

theorem max_node_id_ge (inner : InnerBody) {p : String × Node} (hp : p ∈ inner.nodes)
    {v : Int} (hv : pyIntOfStr p.1 = some v) : v ≤ max_node_id inner :=
  foldl_pyMax_mem inner.nodes 0 p hp v hv

theorem pyIntOfStr_intRepr_pos (i : Int) (h : 0 ≤ i) :
    pyIntOfStr (intRepr i) = some i := by
  unfold intRepr
  rw [if_neg (by omega)]
  rw [pyIntOfStr_natRepr]
  congr 1
  omega

theorem freshId_not_mem (inner : InnerBody) (i : Nat) :
    ¬ intRepr (max_node_id inner + 1 + i) ∈ nodeKeys inner.nodes := by
  intro hmem
  obtain ⟨p, hp, hpk⟩ := List.mem_map.mp hmem
  have hpos : (0 : Int) ≤ max_node_id inner + 1 + i := by
    have := max_node_id_nonneg inner
    omega
  have hparse : pyIntOfStr p.1 = some (max_node_id inner + 1 + i) := by
    rw [hpk]
    exact pyIntOfStr_intRepr_pos _ hpos
  have := max_node_id_ge inner hp hparse
  omega

theorem intRepr_pos_inj {a b : Int} (ha : 0 ≤ a) (hb : 0 ≤ b)
    (h : intRepr a = intRepr b) : a = b := by
  have h1 := pyIntOfStr_intRepr_pos a ha
  rw [h, pyIntOfStr_intRepr_pos b hb] at h1
  exact (Option.some.injEq _ _ ▸ h1).symm

theorem walkAux_zero (nodes : List (String × Node)) (order : List String)
    (pending : List (Option String)) : walkAux nodes 0 order pending = order := rfl

theorem walkAux_nil (nodes : List (String × Node)) (fuel : Nat) (order : List String) :
    walkAux nodes fuel order [] = order := by
  cases fuel <;> rfl

theorem walkAux_none_step (nodes : List (String × Node)) (fuel : Nat)
    (order : List String) (pending : List (Option String)) :
    walkAux nodes (fuel + 1) order (none :: pending) = walkAux nodes fuel order pending := rfl

theorem walkAux_some_step (nodes : List (String × Node)) (fuel : Nat)
    (order : List String) (pending : List (Option String)) (nid : String) :
    walkAux nodes (fuel + 1) order (some nid :: pending) =
      if nid ∈ order then walkAux nodes fuel order pending
      else
        match List.lookup nid nodes with
        | none => walkAux nodes fuel order pending
        | some node => walkAux nodes fuel (order ++ [nid]) (successors node ++ pending) := rfl

theorem walkAux_extends (nodes : List (String × Node)) :
    ∀ (fuel : Nat) (order : List String) (pending : List (Option String)),
      ∃ ext, walkAux nodes fuel order pending = order ++ ext := by
  intro fuel
  induction fuel with
  | zero => intro order pending; exact ⟨[], by simp [walkAux_zero]⟩
  | succ fuel ih =>
    intro order pending
    match pending with
    | [] => exact ⟨[], by simp [walkAux_nil]⟩
    | none :: rest => rw [walkAux_none_step]; exact ih order rest
    | some x :: rest =>
      rw [walkAux_some_step]
      by_cases hx : x ∈ order
      · simp only [hx, if_true]; exact ih order rest
      · simp only [hx, if_false]
        cases hl : List.lookup x nodes with
        | none => exact ih order rest
        | some node =>
          obtain ⟨ext, hext⟩ := ih (order ++ [x]) (successors node ++ rest)
          exact ⟨[x] ++ ext, by simp only [hext, List.append_assoc]⟩

theorem mem_walkAux_of_mem (nodes : List (String × Node)) (fuel : Nat)
    (order : List String) (pending : List (Option String)) {nid : String}
    (h : nid ∈ order) : nid ∈ walkAux nodes fuel order pending := by
  obtain ⟨ext, hext⟩ := walkAux_extends nodes fuel order pending
  rw [hext]
  exact List.mem_append.mpr (Or.inl h)

theorem walkAux_mem (nodes : List (String × Node)) :
    ∀ (fuel : Nat) (order : List String) (pending : List (Option String)),
      ∀ nid ∈ walkAux nodes fuel order pending,
        nid ∈ order ∨ (List.lookup nid nodes).isSome = true := by
  intro fuel
  induction fuel with
  | zero => intro order pending nid h; rw [walkAux_zero] at h; exact Or.inl h
  | succ fuel ih =>
    intro order pending nid h
    match pending with
    | [] => rw [walkAux_nil] at h; exact Or.inl h
    | none :: rest => rw [walkAux_none_step] at h; exact ih order rest nid h
    | some x :: rest =>
      rw [walkAux_some_step] at h
      by_cases hx : x ∈ order
      · simp only [hx, if_true] at h; exact ih order rest nid h
      · simp only [hx, if_false] at h
        cases hl : List.lookup x nodes with
        | none => rw [hl] at h; exact ih order rest nid h
        | some node =>
          rw [hl] at h
          rcases ih (order ++ [x]) (successors node ++ rest) nid h with hh | hh
          · rcases List.mem_append.mp hh with hh | hh
            · exact Or.inl hh
            · rcases List.mem_singleton.mp hh with rfl
              exact Or.inr (by simp [hl])
          · exact Or.inr hh

theorem walkAux_nodup (nodes : List (String × Node)) :
    ∀ (fuel : Nat) (order : List String) (pending : List (Option String)),
      order.Nodup → (walkAux nodes fuel order pending).Nodup := by
  intro fuel
  induction fuel with
  | zero => intro order pending h; rw [walkAux_zero]; exact h
  | succ fuel ih =>
    intro order pending h
    match pending with
    | [] => rw [walkAux_nil]; exact h
    | none :: rest => rw [walkAux_none_step]; exact ih order rest h
    | some x :: rest =>
      rw [walkAux_some_step]
      by_cases hx : x ∈ order
      · simp only [hx, if_true]; exact ih order rest h
      · simp only [hx, if_false]
        cases hl : List.lookup x nodes with
        | none => exact ih order rest h
        | some node =>
          exact ih (order ++ [x]) (successors node ++ rest)
            (by simp [List.nodup_append, h, hx])

theorem succCount_mono (nodes : List (String × Node)) (order : List String) (x : String) :
    succCount nodes (order ++ [x]) ≤ succCount nodes order := by
  induction nodes with
  | nil => simp [succCount]
  | cons p rest ih =>
    simp only [succCount, List.filter] at *
    by_cases h : p.1 ∈ order ++ [x]
    · have h2 : decide (¬ p.1 ∈ order ++ [x]) = false := by simp [h]
      rw [h2]
      by_cases h3 : p.1 ∈ order
      · have h4 : decide (¬ p.1 ∈ order) = false := by simp [h3]
        rw [h4]
        exact ih
      · have h4 : decide (¬ p.1 ∈ order) = true := by simp [h3]
        rw [h4]
        simp only [List.map_cons, List.sum_cons]
        omega
    · have h3 : ¬ p.1 ∈ order := fun hc => h (List.mem_append.mpr (Or.inl hc))
      have h2 : decide (¬ p.1 ∈ order ++ [x]) = true := by simp [h]
      have h4 : decide (¬ p.1 ∈ order) = true := by simp [h3]
      rw [h2, h4]
      simp only [List.map_cons, List.sum_cons]
      omega

theorem succCount_visit (nodes : List (String × Node)) (order : List String)
    {x : String} {node : Node} (hx : ¬ x ∈ order)
    (hl : List.lookup x nodes = some node) :
    succCount nodes (order ++ [x]) + (successors node).length ≤ succCount nodes order := by
  induction nodes with
  | nil => simp [List.lookup] at hl
  | cons p rest ih =>
    obtain ⟨k, v⟩ := p
    by_cases hk : x = k
    · subst hk
      rw [List.lookup_cons_self] at hl
      injection hl with hl
      subst hl
      have h1 : decide (¬ x ∈ order ++ [x]) = false := by simp
      have h2 : decide (¬ x ∈ order) = true := by simp [hx]
      simp only [succCount, List.filter, h1, h2]
      simp only [List.map_cons, List.sum_cons]
      have := succCount_mono rest order x
      simp only [succCount] at this
      omega
    · have hlk : List.lookup x ((k, v) :: rest) = List.lookup x rest := by
        simp [List.lookup, beq_eq_false_iff_ne.mpr hk]
      rw [hlk] at hl
      have hmem : k ∈ order ++ [x] ↔ k ∈ order := by
        simp only [List.mem_append, List.mem_singleton]
        constructor
        · rintro (h | h)
          · exact h
          · exact absurd h.symm hk
        · exact fun h => Or.inl h
      simp only [succCount, List.filter]
      by_cases h3 : k ∈ order
      · have ha : decide (¬ k ∈ order ++ [x]) = false := by simp [hmem.mpr h3]
        have hb : decide (¬ k ∈ order) = false := by simp [h3]
        rw [ha, hb]
        have := ih hl
        simp only [succCount] at this
        exact this
      · have ha : decide (¬ k ∈ order ++ [x]) = true := by
          simp only [decide_eq_true_eq]
          exact fun hc => h3 (hmem.mp hc)
        have hb : decide (¬ k ∈ order) = true := by simp [h3]
        rw [ha, hb]
        simp only [List.map_cons, List.sum_cons]
        have := ih hl
        simp only [succCount] at this
        omega

theorem walkAux_stable (nodes : List (String × Node)) :
    ∀ (f g : Nat) (order : List String) (pending : List (Option String)),
      walkPhi nodes order pending ≤ f → walkPhi nodes order pending ≤ g →
      walkAux nodes f order pending = walkAux nodes g order pending := by
  intro f
  induction f with
  | zero =>
    intro g order pending hf _
    have : pending = [] := by
      cases pending with
      | nil => rfl
      | cons p rest => simp [walkPhi] at hf
    subst this
    rw [walkAux_zero, walkAux_nil]
  | succ f ih =>
    intro g order pending hf hg
    match pending with
    | [] => rw [walkAux_nil, walkAux_nil]
    | p :: rest =>
      have hphi1 : 1 ≤ walkPhi nodes order (p :: rest) := by simp [walkPhi]; omega
      cases g with
      | zero => omega
      | succ g =>
        match p with
        | none =>
          rw [walkAux_none_step, walkAux_none_step]
          have : walkPhi nodes order rest + 1 = walkPhi nodes order (none :: rest) := by
            simp [walkPhi]
            omega
          exact ih g order rest (by omega) (by omega)
        | some x =>
          rw [walkAux_some_step, walkAux_some_step]
          have hrest : walkPhi nodes order rest + 1 = walkPhi nodes order (some x :: rest) := by
            simp [walkPhi]
            omega
          by_cases hx : x ∈ order
          · simp only [hx, if_true]
            exact ih g order rest (by omega) (by omega)
          · simp only [hx, if_false]
            cases hl : List.lookup x nodes with
            | none => exact ih g order rest (by omega) (by omega)
            | some node =>
              have hkey : walkPhi nodes (order ++ [x]) (successors node ++ rest) + 1 ≤
                  walkPhi nodes order (some x :: rest) := by
                have := succCount_visit nodes order hx hl
                simp only [walkPhi, List.length_append, List.length_cons]
                omega
              exact ih g (order ++ [x]) (successors node ++ rest) (by omega) (by omega)

theorem walkAux_absorb (nodes : List (String × Node)) :
    ∀ (fuel : Nat) (order : List String) (pending : List (Option String)),
      walkPhi nodes order pending ≤ fuel →
      ∀ t, some t ∈ pending → (List.lookup t nodes).isSome = true →
        t ∈ walkAux nodes fuel order pending := by
  intro fuel
  induction fuel with
  | zero =>
    intro order pending hf t ht _
    cases pending with
    | nil => simp at ht
    | cons p rest => simp [walkPhi] at hf
  | succ fuel ih =>
    intro order pending hf t ht hex
    match pending with
    | [] => simp at ht
    | none :: rest =>
      rw [walkAux_none_step]
      have hrest : walkPhi nodes order rest + 1 = walkPhi nodes order (none :: rest) := by
        simp [walkPhi]; omega
      exact ih order rest (by omega) t (by simpa using ht) hex
    | some x :: rest =>
      rw [walkAux_some_step]
      have hrest : walkPhi nodes order rest + 1 = walkPhi nodes order (some x :: rest) := by
        simp [walkPhi]; omega
      by_cases hx : x ∈ order
      · simp only [hx, if_true]
        rcases List.mem_cons.mp ht with hh | hh
        · have httx : t = x := by injection hh
          subst httx
          exact mem_walkAux_of_mem nodes fuel order rest hx
        · exact ih order rest (by omega) t hh hex
      · simp only [hx, if_false]
        cases hl : List.lookup x nodes with
        | none =>
          rcases List.mem_cons.mp ht with hh | hh
          · have : t = x := by injection hh
            subst this
            rw [hl] at hex
            simp at hex
          · exact ih order rest (by omega) t hh hex
        | some node =>
          have hkey : walkPhi nodes (order ++ [x]) (successors node ++ rest) + 1 ≤
              walkPhi nodes order (some x :: rest) := by
            have := succCount_visit nodes order hx hl
            simp only [walkPhi, List.length_append, List.length_cons]
            omega
          rcases List.mem_cons.mp ht with hh | hh
          · have htx : t = x := by injection hh
            subst htx
            exact mem_walkAux_of_mem nodes fuel (order ++ [t]) (successors node ++ rest)
              (by simp)
          · exact ih (order ++ [x]) (successors node ++ rest) (by omega) t
              (List.mem_append.mpr (Or.inr hh)) hex

theorem walkAux_closed (nodes : List (String × Node)) :
    ∀ (fuel : Nat) (order : List String) (pending : List (Option String)),
      walkPhi nodes order pending ≤ fuel → walkInv nodes order pending →
      ∀ nid ∈ walkAux nodes fuel order pending, ∀ n, List.lookup nid nodes = some n →
        ∀ t, some t ∈ successors n → (List.lookup t nodes).isSome = true →
          t ∈ walkAux nodes fuel order pending := by
  intro fuel
  induction fuel with
  | zero =>
    intro order pending hf hinv nid hnid n hn t hsucc hex
    cases pending with
    | cons p rest => simp [walkPhi] at hf
    | nil =>
      rw [walkAux_zero] at hnid ⊢
      rcases hinv nid hnid n hn t hsucc hex with h | h
      · exact h
      · simp at h
  | succ fuel ih =>
    intro order pending hf hinv nid hnid n hn t hsucc hex
    match pending with
    | [] =>
      rw [walkAux_nil] at hnid ⊢
      rcases hinv nid hnid n hn t hsucc hex with h | h
      · exact h
      · simp at h
    | none :: rest =>
      rw [walkAux_none_step] at hnid ⊢
      have hrest : walkPhi nodes order rest + 1 = walkPhi nodes order (none :: rest) := by
        simp [walkPhi]; omega
      have hinv' : walkInv nodes order rest := by
        intro a ha an han u hu huex
        rcases hinv a ha an han u hu huex with h | h
        · exact Or.inl h
        · rcases List.mem_cons.mp h with h | h
          · exact absurd h (by simp)
          · exact Or.inr h
      exact ih order rest (by omega) hinv' nid hnid n hn t hsucc hex
    | some x :: rest =>
      rw [walkAux_some_step] at hnid ⊢
      have hrest : walkPhi nodes order rest + 1 = walkPhi nodes order (some x :: rest) := by
        simp [walkPhi]; omega
      by_cases hx : x ∈ order
      · simp only [hx, if_true] at hnid ⊢
        have hinv' : walkInv nodes order rest := by
          intro a ha an han u hu huex
          rcases hinv a ha an han u hu huex with h | h
          · exact Or.inl h
          · rcases List.mem_cons.mp h with h | h
            · have : u = x := by injection h
              subst this
              exact Or.inl hx
            · exact Or.inr h
        exact ih order rest (by omega) hinv' nid hnid n hn t hsucc hex
      · simp only [hx, if_false] at hnid ⊢
        cases hl : List.lookup x nodes with
        | none =>
          rw [hl] at hnid
          have hinv' : walkInv nodes order rest := by
            intro a ha an han u hu huex
            rcases hinv a ha an han u hu huex with h | h
            · exact Or.inl h
            · rcases List.mem_cons.mp h with h | h
              · have : u = x := by injection h
                subst this
                rw [hl] at huex
                simp at huex
              · exact Or.inr h
          exact ih order rest (by omega) hinv' nid hnid n hn t hsucc hex
        | some node =>
          have hkey : walkPhi nodes (order ++ [x]) (successors node ++ rest) + 1 ≤
              walkPhi nodes order (some x :: rest) := by
            have := succCount_visit nodes order hx hl
            simp only [walkPhi, List.length_append, List.length_cons]
            omega
          rw [hl] at hnid
          have hinv' : walkInv nodes (order ++ [x]) (successors node ++ rest) := by
            intro a ha an han u hu huex
            rcases List.mem_append.mp ha with ha | ha
            · rcases hinv a ha an han u hu huex with h | h
              · exact Or.inl (List.mem_append.mpr (Or.inl h))
              · rcases List.mem_cons.mp h with h | h
                · have : u = x := by injection h
                  subst this
                  exact Or.inl (by simp)
                · exact Or.inr (List.mem_append.mpr (Or.inr h))
            · rcases List.mem_singleton.mp ha with rfl
              rw [hl] at han
              injection han with han
              subst han
              exact Or.inr (List.mem_append.mpr (Or.inl hu))
          exact ih (order ++ [x]) (successors node ++ rest) (by omega) hinv' nid hnid n hn
            t hsucc hex

theorem walk_complete (inner : InnerBody) (s : String) :
    ∀ t, ReachableFrom inner s t → t ∈ walk_subgraph inner s := by
  intro t h
  induction h with
  | start h =>
    exact walkAux_absorb inner.nodes (walkFuel inner.nodes) [] [some s]
      (by simp [walkPhi, walkFuel, succCount]; omega) s (by simp) h
  | step _ hl hsucc hex ih =>
    exact walkAux_closed inner.nodes (walkFuel inner.nodes) [] [some s]
      (by simp [walkPhi, walkFuel, succCount]; omega) (by intro a ha; simp at ha) _ ih _ hl _
      hsucc hex

theorem sigEntries_isSome (nodes : List (String × Node)) (order : List String)
    (h : ∀ nid ∈ order, (List.lookup nid nodes).isSome = true) :
    (sigEntries nodes order).isSome = true := by
  induction order with
  | nil => simp [sigEntries]
  | cons nid rest ih =>
    have h1 : (List.lookup nid nodes).isSome = true := h nid (by simp)
    obtain ⟨node, hnode⟩ := Option.isSome_iff_exists.mp h1
    have h2 := ih (fun x hx => h x (by simp [hx]))
    obtain ⟨tl, htl⟩ := Option.isSome_iff_exists.mp h2
    simp [sigEntries, hnode, htl]

theorem walk_subgraph_keys (inner : InnerBody) (s : String) :
    ∀ nid ∈ walk_subgraph inner s, (List.lookup nid inner.nodes).isSome = true := by
  intro nid h
  rcases walkAux_mem inner.nodes (walkFuel inner.nodes) [] [some s] nid h with hh | hh
  · simp at hh
  · exact hh

/-- Claim C10: every id in the order returned by walk_subgraph is a key of
the document's node mapping; a start id that is not a node yields the
empty walk (end-of-path, not an error), and consequently the node lookup
inside compute_shape_signature is total: the signature always exists. -/
theorem claim_C10 (inner : InnerBody) (s : String) :
    (∀ nid ∈ walk_subgraph inner s, (List.lookup nid inner.nodes).isSome = true) ∧
    (List.lookup s inner.nodes = none → walk_subgraph inner s = []) ∧
    (computeShapeSignature inner s).isSome = true := by
  refine ⟨walk_subgraph_keys inner s, ?_, ?_⟩
  · intro h
    show walkAux inner.nodes (succCount inner.nodes [] + 1) [] [some s] = []
    rw [walkAux_some_step]
    simp only [List.not_mem_nil, if_false, h]
    exact walkAux_nil _ _ _
  · unfold computeShapeSignature
    have h1 := sigEntries_isSome inner.nodes (walk_subgraph inner s)
      (walk_subgraph_keys inner s)
    obtain ⟨l, hl⟩ := Option.isSome_iff_exists.mp h1
    simp [hl]

/-- Witness for claim C10 at a concrete document. -/
theorem claim_C10_witness : (computeShapeSignature docGood "2").isSome = true :=
  (claim_C10 docGood "2").2.2

/-- Claim C9: the walker terminates on every document (it is a total
function here, and its order never repeats a node), every reachable node
appears in the order, and on the concrete one-node document whose node's
default points to itself the walk visits that node exactly once while
clone_subgraph creates exactly one new node. -/
theorem claim_C9 :
    (∀ (inner : InnerBody) (s : String), (walk_subgraph inner s).Nodup) ∧
    (∀ (inner : InnerBody) (s t : String),
      ReachableFrom inner s t → t ∈ walk_subgraph inner s) ∧
    walk_subgraph docLoopOnly "1" = ["1"] ∧
    (clone_subgraph docLoopOnly "1").body.nodes.length = docLoopOnly.nodes.length + 1 := by
  refine ⟨?_, ?_, by decide, by decide⟩
  · intro inner s
    exact walkAux_nodup inner.nodes (walkFuel inner.nodes) [] [some s] (by simp)
  · intro inner s t h
    exact walk_complete inner s t h

/-- Witness for claim C9: on the self-loop document the start node is
reachable, so the general completeness part applies to it. -/
theorem claim_C9_witness : "1" ∈ walk_subgraph docLoopOnly "1" :=
  claim_C9.2.1 docLoopOnly "1" "1" (ReachableFrom.start (by decide))

theorem freshIds_length (base : Int) (len : Nat) : (freshIds base len).length = len := by
  induction len generalizing base with
  | zero => rfl
  | succ n ih => simp [freshIds, ih]

theorem mem_freshIds (base : Int) (len : Nat) :
    ∀ k ∈ freshIds base len, ∃ i : Nat, i < len ∧ k = intRepr (base + i) := by
  induction len generalizing base with
  | zero => simp [freshIds]
  | succ n ih =>
    intro k hk
    rcases List.mem_cons.mp hk with rfl | hk
    · exact ⟨0, by omega, by simp⟩
    · obtain ⟨i, hi, hk⟩ := ih (base + 1) k hk
      refine ⟨i + 1, by omega, ?_⟩
      rw [hk]
      congr 1
      omega

theorem freshIds_getElem (base : Int) (len : Nat) :
    ∀ i : Nat, i < len → (freshIds base len)[i]? = some (intRepr (base + i)) := by
  induction len generalizing base with
  | zero => omega
  | succ n ih =>
    intro i hi
    cases i with
    | zero => simp [freshIds]
    | succ i =>
      have := ih (base + 1) i (by omega)
      simp only [freshIds, List.getElem?_cons_succ]
      rw [this]
      congr 2
      omega

theorem freshIds_nodup (base : Int) (len : Nat) (hb : 0 ≤ base) :
    (freshIds base len).Nodup := by
  induction len generalizing base with
  | zero => simp [freshIds]
  | succ n ih =>
    simp only [freshIds, List.nodup_cons]
    constructor
    · intro hmem
      obtain ⟨i, hi, hk⟩ := mem_freshIds (base + 1) n (intRepr base) hmem
      have := intRepr_pos_inj hb (by omega) hk
      omega
    · exact ih (base + 1) (by omega)

theorem clonePass1_cons_none (o : String) (rest : List String) (base : Int)
    (nodes : List (String × Node)) (acc : List (String × String))
    (hl : List.lookup o nodes = none) :
    clonePass1 (o :: rest) base nodes acc =
      clonePass1 rest (base + 1) nodes (acc ++ [(o, intRepr base)]) := by
  simp only [clonePass1, hl]

theorem clonePass1_cons_some (o : String) (rest : List String) (base : Int)
    (nodes : List (String × Node)) (acc : List (String × String)) (node : Node)
    (hl : List.lookup o nodes = some node) :
    clonePass1 (o :: rest) base nodes acc =
      clonePass1 rest (base + 1)
        (setNode nodes (intRepr base) { node with id := intRepr base })
        (acc ++ [(o, intRepr base)]) := by
  simp only [clonePass1, hl]

theorem clonePass1_mapping (order : List String) :
    ∀ (base : Int) (nodes : List (String × Node)) (acc : List (String × String)),
      (clonePass1 order base nodes acc).2 = acc ++ order.zip (freshIds base order.length) := by
  induction order with
  | nil => intro base nodes acc; simp [clonePass1, freshIds]
  | cons o rest ih =>
    intro base nodes acc
    cases hl : List.lookup o nodes with
    | none =>
      rw [clonePass1_cons_none o rest base nodes acc hl,
        ih (base + 1) nodes (acc ++ [(o, intRepr base)])]
      simp [freshIds, List.zip]
    | some node =>
      rw [clonePass1_cons_some o rest base nodes acc node hl,
        ih (base + 1) _ (acc ++ [(o, intRepr base)])]
      simp [freshIds, List.zip]

theorem clonePass1_frame (order : List String) :
    ∀ (base : Int) (nodes : List (String × Node)) (acc : List (String × String)),
      0 ≤ base →
      (∀ i : Nat, i < order.length → ¬ intRepr (base + i) ∈ nodeKeys nodes) →
      ∃ newEntries,
        (clonePass1 order base nodes acc).1 = nodes ++ newEntries ∧
        (∀ k ∈ nodeKeys newEntries, ∃ i : Nat, i < order.length ∧ k = intRepr (base + i)) ∧
        (nodeKeys newEntries).Nodup := by
  induction order with
  | nil =>
    intro base nodes acc _ _
    exact ⟨[], by simp [clonePass1], by simp [nodeKeys], by simp [nodeKeys]⟩
  | cons o rest ih =>
    intro base nodes acc hb hfresh
    cases hl : List.lookup o nodes with
    | none =>
      rw [clonePass1_cons_none o rest base nodes acc hl]
      obtain ⟨ne, hne, hprop, hnd⟩ := ih (base + 1) nodes (acc ++ [(o, intRepr base)]) (by omega)
        (fun i hi => by
          have := hfresh (i + 1) (by simpa using Nat.succ_lt_succ hi)
          have harg : base + 1 + (i : Int) = base + (((i : Nat) + 1 : Nat) : Int) := by
            push_cast
            ring
          rw [harg]
          exact this)
      refine ⟨ne, hne, fun k hk => ?_, hnd⟩
      obtain ⟨i, hi, hk⟩ := hprop k hk
      refine ⟨i + 1, by simpa using Nat.succ_lt_succ hi, ?_⟩
      rw [hk]
      congr 1
      push_cast
      ring
    | some node =>
      rw [clonePass1_cons_some o rest base nodes acc node hl]
      have hset : setNode nodes (intRepr base) { node with id := intRepr base } =
          nodes ++ [(intRepr base, { node with id := intRepr base })] :=
        setNode_of_not_mem nodes _ (by
          have := hfresh 0 (by simp)
          simpa using this)
      rw [hset]
      obtain ⟨ne, hne, hprop, hnd⟩ := ih (base + 1)
        (nodes ++ [(intRepr base, { node with id := intRepr base })])
        (acc ++ [(o, intRepr base)]) (by omega)
        (fun i hi => by
          intro hmem
          rw [nodeKeys_append] at hmem
          rcases List.mem_append.mp hmem with hmem | hmem
          · have := hfresh (i + 1) (by simpa using Nat.succ_lt_succ hi)
            have harg : base + 1 + (i : Int) = base + (((i : Nat) + 1 : Nat) : Int) := by
              push_cast
              ring
            rw [harg] at hmem
            exact this hmem
          · simp only [nodeKeys, List.map_cons, List.map_nil, List.mem_singleton] at hmem
            have := intRepr_pos_inj (by omega) hb hmem
            omega)
      refine ⟨(intRepr base, { node with id := intRepr base }) :: ne, by
        rw [hne, List.append_assoc]
        simp, fun k hk => ?_, ?_⟩
      · rw [nodeKeys_cons] at hk
        rcases List.mem_cons.mp hk with rfl | hk
        · exact ⟨0, by simp, by simp⟩
        · obtain ⟨i, hi, hk⟩ := hprop k hk
          refine ⟨i + 1, by simpa using Nat.succ_lt_succ hi, ?_⟩
          rw [hk]
          congr 1
          push_cast
          ring
      · rw [nodeKeys_cons]
        refine List.nodup_cons.mpr ⟨?_, hnd⟩
        intro hmem
        obtain ⟨i, _, hk⟩ := hprop _ hmem
        have := intRepr_pos_inj hb (by omega) hk
        omega

theorem clonePass1_lookup_old (order : List String) :
    ∀ (base : Int) (nodes : List (String × Node)) (acc : List (String × String)),
      0 ≤ base →
      (∀ i : Nat, i < order.length → ¬ intRepr (base + i) ∈ nodeKeys nodes) →
      ∀ k, k ∈ nodeKeys nodes →
        List.lookup k (clonePass1 order base nodes acc).1 = List.lookup k nodes := by
  intro base nodes acc hb hfresh k hk
  obtain ⟨ne, hne, hprop, _⟩ := clonePass1_frame order base nodes acc hb hfresh
  rw [hne]
  exact lookup_append_left ne ((lookup_isSome_iff nodes k).mpr hk)

theorem zip_freshIds_cons (o : String) (rest : List String) (base : Int) :
    (o :: rest).zip (freshIds base (o :: rest).length) =
      (o, intRepr base) :: rest.zip (freshIds (base + 1) rest.length) := by
  simp [freshIds, List.zip]

theorem clonePass1_lookup_new (order : List String) :
    ∀ (base : Int) (nodes : List (String × Node)) (acc : List (String × String)),
      0 ≤ base →
      (∀ i : Nat, i < order.length → ¬ intRepr (base + i) ∈ nodeKeys nodes) →
      ∀ o f, (o, f) ∈ order.zip (freshIds base order.length) →
        ∀ n, List.lookup o nodes = some n →
          List.lookup f (clonePass1 order base nodes acc).1 = some { n with id := f } := by
  induction order with
  | nil => intro base nodes acc _ _ o f h; simp [freshIds] at h
  | cons o0 rest ih =>
    intro base nodes acc hb hfresh o f hmem n hn
    rw [zip_freshIds_cons] at hmem
    have hfresh0 : ¬ intRepr base ∈ nodeKeys nodes := by
      have := hfresh 0 (by simp)
      simpa using this
    rcases List.mem_cons.mp hmem with heq | hmem
    · injection heq with ho hf
      subst ho
      subst hf
      cases hl : List.lookup o nodes with
      | none => rw [hl] at hn; cases hn
      | some node =>
        rw [hl] at hn
        injection hn with hn
        subst hn
        rw [clonePass1_cons_some o rest base nodes acc node hl]
        have hset : setNode nodes (intRepr base) { node with id := intRepr base } =
            nodes ++ [(intRepr base, { node with id := intRepr base })] :=
          setNode_of_not_mem nodes _ hfresh0
        rw [hset]
        have hkeys : intRepr base ∈
            nodeKeys (nodes ++ [(intRepr base, { node with id := intRepr base })]) := by
          rw [nodeKeys_append]
          simp [nodeKeys]
        rw [clonePass1_lookup_old rest (base + 1) _ _ (by omega) (fun i hi => by
          intro hm
          rw [nodeKeys_append] at hm
          rcases List.mem_append.mp hm with hm | hm
          · have := hfresh (i + 1) (by simpa using Nat.succ_lt_succ hi)
            have harg : base + 1 + (i : Int) = base + (((i : Nat) + 1 : Nat) : Int) := by
              push_cast
              ring
            rw [harg] at hm
            exact this hm
          · simp only [nodeKeys, List.map_cons, List.map_nil, List.mem_singleton] at hm
            have := intRepr_pos_inj (by omega) hb hm
            omega) (intRepr base) hkeys]
        rw [lookup_append_right _ hfresh0]
        simp [List.lookup]
    · cases hl : List.lookup o0 nodes with
      | none =>
        rw [clonePass1_cons_none o0 rest base nodes acc hl]
        exact ih (base + 1) nodes _ (by omega) (fun i hi => by
          have := hfresh (i + 1) (by simpa using Nat.succ_lt_succ hi)
          have harg : base + 1 + (i : Int) = base + (((i : Nat) + 1 : Nat) : Int) := by
            push_cast
            ring
          rw [harg]
          exact this) o f hmem n hn
      | some node0 =>
        rw [clonePass1_cons_some o0 rest base nodes acc node0 hl]
        have hset : setNode nodes (intRepr base) { node0 with id := intRepr base } =
            nodes ++ [(intRepr base, { node0 with id := intRepr base })] :=
          setNode_of_not_mem nodes _ hfresh0
        rw [hset]
        refine ih (base + 1) _ _ (by omega) (fun i hi => by
          intro hm
          rw [nodeKeys_append] at hm
          rcases List.mem_append.mp hm with hm | hm
          · have := hfresh (i + 1) (by simpa using Nat.succ_lt_succ hi)
            have harg : base + 1 + (i : Int) = base + (((i : Nat) + 1 : Nat) : Int) := by
              push_cast
              ring
            rw [harg] at hm
            exact this hm
          · simp only [nodeKeys, List.map_cons, List.map_nil, List.mem_singleton] at hm
            have := intRepr_pos_inj (by omega) hb hm
            omega) o f hmem n ?_
        rw [lookup_append]
        rw [hn]

theorem clonePass2_go_frame (mapping : List (String × String)) :
    ∀ (todo : List (String × String)) (nodes : List (String × Node)) (k : String),
      (∀ q ∈ todo, ¬ q.2 = k) →
      List.lookup k (todo.foldl (fun nodes q =>
        match List.lookup q.2 nodes with
        | none => nodes
        | some nd => setNode nodes q.2 (rewriteRefs mapping nd)) nodes) =
      List.lookup k nodes := by
  intro todo
  induction todo with
  | nil => intro nodes k _; rfl
  | cons q rest ih =>
    intro nodes k hk
    simp only [List.foldl_cons]
    cases hl : List.lookup q.2 nodes with
    | none => exact ih nodes k (fun p hp => hk p (by simp [hp]))
    | some nd =>
      rw [ih _ k (fun p hp => hk p (by simp [hp]))]
      exact lookup_setNode_ne nodes _ (fun hc => hk q (by simp) hc.symm)

theorem clonePass2_go_lookup (mapping : List (String × String)) :
    ∀ (todo : List (String × String)) (nodes : List (String × Node)),
      (todo.map Prod.snd).Nodup →
      ∀ q ∈ todo, ∀ n, List.lookup q.2 nodes = some n →
        List.lookup q.2 (todo.foldl (fun nodes q =>
          match List.lookup q.2 nodes with
          | none => nodes
          | some nd => setNode nodes q.2 (rewriteRefs mapping nd)) nodes) =
        some (rewriteRefs mapping n) := by
  intro todo
  induction todo with
  | nil => intro nodes _ q hq; simp at hq
  | cons q0 rest ih =>
    intro nodes hnd q hq n hn
    simp only [List.map_cons, List.nodup_cons] at hnd
    rcases List.mem_cons.mp hq with rfl | hq
    · simp only [List.foldl_cons, hn]
      rw [clonePass2_go_frame mapping rest _ q.2
        (fun p hp hc => hnd.1 (hc ▸ List.mem_map_of_mem Prod.snd hp))]
      exact lookup_setNode_self nodes q.2 (rewriteRefs mapping n)
    · simp only [List.foldl_cons]
      cases hl : List.lookup q0.2 nodes with
      | none => exact ih nodes hnd.2 q hq n hn
      | some nd =>
        refine ih _ hnd.2 q hq n ?_
        rw [lookup_setNode_ne nodes _ (fun hc : q.2 = q0.2 =>
          hnd.1 (hc ▸ List.mem_map_of_mem Prod.snd hq))]
        exact hn

theorem clonePass2_frame (mapping : List (String × String))
    (nodes : List (String × Node)) (k : String)
    (h : ∀ q ∈ mapping, ¬ q.2 = k) :
    List.lookup k (clonePass2 mapping nodes) = List.lookup k nodes :=
  clonePass2_go_frame mapping mapping nodes k h

theorem clonePass2_lookup (mapping : List (String × String))
    (nodes : List (String × Node)) (hnd : (mapping.map Prod.snd).Nodup)
    {q : String × String} (hq : q ∈ mapping) {n : Node}
    (hn : List.lookup q.2 nodes = some n) :
    List.lookup q.2 (clonePass2 mapping nodes) = some (rewriteRefs mapping n) :=
  clonePass2_go_lookup mapping mapping nodes hnd q hq n hn

theorem setNode_append_right (a b : List (String × Node)) (k : String) (v : Node)
    (h : ¬ k ∈ nodeKeys a) : setNode (a ++ b) k v = a ++ setNode b k v := by
  induction a with
  | nil => simp
  | cons p rest ih =>
    obtain ⟨k0, v0⟩ := p
    rw [nodeKeys_cons] at h
    have h1 : ¬ k0 = k := fun hh => h (by simp [hh])
    simp only [List.cons_append, setNode, h1, if_false]
    exact congrArg (List.cons (k0, v0)) (ih (fun hh => h (by simp [hh])))

theorem clonePass2_go_append (mapping todo : List (String × String)) :
    ∀ (a b : List (String × Node)),
      (∀ q ∈ todo, ¬ q.2 ∈ nodeKeys a) →
      ∃ b', (todo.foldl (fun nodes q =>
          match List.lookup q.2 nodes with
          | none => nodes
          | some nd => setNode nodes q.2 (rewriteRefs mapping nd)) (a ++ b)) = a ++ b' ∧
        nodeKeys b' = nodeKeys b := by
  induction todo with
  | nil => intro a b _; exact ⟨b, rfl, rfl⟩
  | cons q rest ih =>
    intro a b hq
    simp only [List.foldl_cons]
    cases hl : List.lookup q.2 (a ++ b) with
    | none => exact ih a b (fun p hp => hq p (by simp [hp]))
    | some nd =>
      have hqa : ¬ q.2 ∈ nodeKeys a := hq q (by simp)
      have hqb : q.2 ∈ nodeKeys b := by
        rw [lookup_append_right b hqa] at hl
        exact (lookup_isSome_iff b q.2).mp (by simp [hl])
      obtain ⟨b', hb', hkeys⟩ := ih a (setNode b q.2 (rewriteRefs mapping nd))
        (fun p hp => hq p (by simp [hp]))
      refine ⟨b', ?_, by rw [hkeys, keys_setNode_of_mem b _ hqb]⟩
      rw [← setNode_append_right a b q.2 _ hqa] at hb'
      exact hb'

theorem clone_subgraph_mapping (inner : InnerBody) (startId : String) :
    (clone_subgraph inner startId).mapping =
      (walk_subgraph inner startId).zip
        (freshIds (max_node_id inner + 1) (walk_subgraph inner startId).length) := by
  unfold clone_subgraph
  simp only []
  rw [clonePass1_mapping]
  simp

theorem clone_subgraph_newStart (inner : InnerBody) (startId : String) :
    (clone_subgraph inner startId).newStart =
      List.lookup startId
        ((walk_subgraph inner startId).zip
          (freshIds (max_node_id inner + 1) (walk_subgraph inner startId).length)) := by
  unfold clone_subgraph
  simp only []
  rw [clonePass1_mapping]
  simp

theorem walk_fresh_not_mem (inner : InnerBody) (startId : String) :
    ∀ i : Nat, i < (walk_subgraph inner startId).length →
      ¬ intRepr (max_node_id inner + 1 + i) ∈ nodeKeys inner.nodes :=
  fun i _ => freshId_not_mem inner i

theorem clone_subgraph_lookup_old (inner : InnerBody) (startId : String) (k : String)
    (hk : k ∈ nodeKeys inner.nodes) :
    List.lookup k (clone_subgraph inner startId).body.nodes = List.lookup k inner.nodes := by
  unfold clone_subgraph
  simp only []
  rw [clonePass1_mapping]
  simp only [List.nil_append]
  unfold clonePass2
  rw [clonePass2_go_frame]
  · exact clonePass1_lookup_old (walk_subgraph inner startId) (max_node_id inner + 1)
      inner.nodes [] (by have := max_node_id_nonneg inner; omega)
      (walk_fresh_not_mem inner startId) k hk
  · intro q hq hc
    have h2 := (List.of_mem_zip hq).2
    obtain ⟨i, hi, hfi⟩ := mem_freshIds _ _ q.2 h2
    rw [hc] at hfi
    rw [hfi] at hk
    exact freshId_not_mem inner i hk

theorem clone_subgraph_lookup_new (inner : InnerBody) (startId : String)
    {o f : String} {n : Node}
    (hmem : (o, f) ∈ (walk_subgraph inner startId).zip
      (freshIds (max_node_id inner + 1) (walk_subgraph inner startId).length))
    (hn : List.lookup o inner.nodes = some n) :
    List.lookup f (clone_subgraph inner startId).body.nodes =
      some (rewriteRefs
        ((walk_subgraph inner startId).zip
          (freshIds (max_node_id inner + 1) (walk_subgraph inner startId).length))
        { n with id := f }) := by
  have hb : (0 : Int) ≤ max_node_id inner + 1 := by
    have := max_node_id_nonneg inner
    omega
  have hnd : (((walk_subgraph inner startId).zip
      (freshIds (max_node_id inner + 1) (walk_subgraph inner startId).length)).map
        Prod.snd).Nodup := by
    rw [List.map_snd_zip _ _ (by rw [freshIds_length])]
    exact freshIds_nodup _ _ hb
  have hp1 := clonePass1_lookup_new (walk_subgraph inner startId) (max_node_id inner + 1)
    inner.nodes [] hb (walk_fresh_not_mem inner startId) o f hmem n hn
  unfold clone_subgraph
  simp only []
  rw [clonePass1_mapping]
  simp only [List.nil_append]
  exact clonePass2_lookup
    ((walk_subgraph inner startId).zip
      (freshIds (max_node_id inner + 1) (walk_subgraph inner startId).length))
    (clonePass1 (walk_subgraph inner startId) (max_node_id inner + 1) inner.nodes []).1
    hnd hmem hp1

/-- Claim C8: clone_subgraph allocates exactly one fresh id per node of the
walker order, pairing the order with str(max_node_id + 1), str(max_node_id
+ 2), and so on; the i-th allocated id is str(max_node_id + 1 + i), so the
first is max + 1 and they increase by exactly one in walker order, and no
allocated id is a pre-existing node key. -/
theorem claim_C8 (inner : InnerBody) (startId : String) :
    (clone_subgraph inner startId).mapping =
      (walk_subgraph inner startId).zip
        (freshIds (max_node_id inner + 1) (walk_subgraph inner startId).length) ∧
    (clone_subgraph inner startId).mapping.length = (walk_subgraph inner startId).length ∧
    (∀ i : Nat, i < (walk_subgraph inner startId).length →
      (freshIds (max_node_id inner + 1) (walk_subgraph inner startId).length)[i]? =
        some (intRepr (max_node_id inner + 1 + i))) ∧
    (∀ i : Nat, i < (walk_subgraph inner startId).length →
      ¬ intRepr (max_node_id inner + 1 + i) ∈ nodeKeys inner.nodes) := by
  refine ⟨clone_subgraph_mapping inner startId, ?_, freshIds_getElem _ _,
    walk_fresh_not_mem inner startId⟩
  rw [clone_subgraph_mapping inner startId, List.length_zip, freshIds_length]
  omega

/-- Witness for claim C8 at a concrete document. -/
theorem claim_C8_witness :
    (clone_subgraph docGood "2").mapping =
      (walk_subgraph docGood "2").zip
        (freshIds (max_node_id docGood + 1) (walk_subgraph docGood "2").length) ∧
    ¬ intRepr (max_node_id docGood + 1 + 0) ∈ nodeKeys docGood.nodes :=
  ⟨(claim_C8 docGood "2").1, (claim_C8 docGood "2").2.2.2 0 (by decide)⟩

/-- Counterexample to claim C3 as stated: running the cloner does not
leave the document identical, because the cloned nodes are added to the
shared node mapping in place. -/
theorem claim_C3_counterexample : (clone_subgraph docLoopOnly "1").body ≠ docLoopOnly := by
  decide

/-- Claim C3 as amended: the cloner never mutates a pre-existing entry;
its only effect on the source document is appending the freshly cloned
nodes under new keys, so every pre-existing key still maps to its exact
old node. -/
theorem claim_C3_amended (inner : InnerBody) (startId : String) :
    ∃ newEntries,
      (clone_subgraph inner startId).body.nodes = inner.nodes ++ newEntries ∧
      (∀ k ∈ nodeKeys newEntries, ¬ k ∈ nodeKeys inner.nodes) ∧
      (∀ k ∈ nodeKeys inner.nodes,
        List.lookup k (clone_subgraph inner startId).body.nodes = List.lookup k inner.nodes) := by
  have hb : (0 : Int) ≤ max_node_id inner + 1 := by
    have := max_node_id_nonneg inner
    omega
  obtain ⟨ne, hne, hprop, _⟩ := clonePass1_frame (walk_subgraph inner startId)
    (max_node_id inner + 1) inner.nodes [] hb (walk_fresh_not_mem inner startId)
  have hdisj : ∀ k ∈ nodeKeys ne, ¬ k ∈ nodeKeys inner.nodes := by
    intro k hk
    obtain ⟨i, hi, hk⟩ := hprop k hk
    rw [hk]
    exact freshId_not_mem inner i
  obtain ⟨ne', hne', hkeys⟩ := clonePass2_go_append
    ((walk_subgraph inner startId).zip
      (freshIds (max_node_id inner + 1) (walk_subgraph inner startId).length))
    ((walk_subgraph inner startId).zip
      (freshIds (max_node_id inner + 1) (walk_subgraph inner startId).length))
    inner.nodes ne
    (fun q hq hmem => by
      obtain ⟨i, hi, hfi⟩ := mem_freshIds _ _ q.2 (List.of_mem_zip hq).2
      rw [hfi] at hmem
      exact freshId_not_mem inner i hmem)
  refine ⟨ne', ?_, ?_, fun k hk => clone_subgraph_lookup_old inner startId k hk⟩
  · unfold clone_subgraph
    simp only []
    rw [clonePass1_mapping]
    simp only [List.nil_append]
    unfold clonePass2
    rw [hne]
    exact hne'
  · intro k hk
    rw [hkeys] at hk
    exact hdisj k hk

/-- Witness for claim C3 as amended, at a concrete document and key. -/
theorem claim_C3_amended_witness :
    List.lookup "2" (clone_subgraph docGood "2").body.nodes = List.lookup "2" docGood.nodes := by
  obtain ⟨ne, h1, h2, h3⟩ := claim_C3_amended docGood "2"
  exact h3 "2" (by decide)

/-- Claim C2: in write mode the workflow is persisted only when the
validator reports zero errors; a non-empty error list always aborts before
any persistence event. -/
theorem claim_C2 (dryRun selfTest : Bool) (inner : InnerBody)
    (h : (validate_inner inner).1 ≠ []) :
    ¬ PipelineEvent.putWorkflow ∈ processWorkflowPipelineEvents dryRun selfTest inner := by
  unfold processWorkflowPipelineEvents
  cases dryRun with
  | true => simp
  | false =>
    simp [h]

/-- Witness for claim C2: a document with a dangling default fails
validation, and the write-mode pipeline on it emits no PUT. -/
theorem claim_C2_witness :
    (validate_inner docBad).1 ≠ [] ∧
      ¬ PipelineEvent.putWorkflow ∈ processWorkflowPipelineEvents false false docBad :=
  ⟨by decide, claim_C2 false false docBad (by decide)⟩

theorem structEq_refl (a : Option Node) : structEq a a := by
  cases a <;> simp [structEq]

theorem structEq_trans {a b c : Option Node} (h1 : structEq a b) (h2 : structEq b c) :
    structEq a c := by
  cases a <;> cases b <;> cases c <;> simp [structEq] at *
  exact ⟨h1.1.trans h2.1, h1.2.1.trans h2.2.1, h1.2.2.trans h2.2.2⟩

theorem nodesStructEq_refl (x : List (String × Node)) : nodesStructEq x x :=
  fun _ => structEq_refl _

theorem nodesStructEq_trans {x y z : List (String × Node)}
    (h1 : nodesStructEq x y) (h2 : nodesStructEq y z) : nodesStructEq x z :=
  fun k => structEq_trans (h1 k) (h2 k)

theorem nodesStructEq_setNode {x : List (String × Node)} {k : String} {n n' : Node}
    (hl : List.lookup k x = some n) (hi : n'.id = n.id)
    (ht : n'.template_id = n.template_id)
    (hx : n'.next = n.next) : nodesStructEq x (setNode x k n') := by
  intro k'
  by_cases hk : k' = k
  · subst hk
    rw [hl, lookup_setNode_self]
    exact ⟨hi.symm, ht.symm, hx.symm⟩
  · rw [lookup_setNode_ne x _ hk]
    exact structEq_refl _

theorem nodesStructEq_foldl {β : Type} (step : List (String × Node) → β → List (String × Node))
    (hstep : ∀ s x, nodesStructEq s (step s x)) :
    ∀ (l : List β) (s : List (String × Node)), nodesStructEq s (l.foldl step s) := by
  intro l
  induction l with
  | nil => intro s; exact nodesStructEq_refl s
  | cons x rest ih =>
    intro s
    exact nodesStructEq_trans (hstep s x) (ih (step s x))

theorem propagateCrumbAux_structEq (mappedVals : List String) (crumbValue : String) :
    ∀ (fuel : Nat) (nodes : List (String × Node)) (seen stack : List String),
      nodesStructEq nodes (propagateCrumbAux mappedVals crumbValue fuel nodes seen stack).1 := by
  intro fuel
  induction fuel with
  | zero => intro nodes seen stack; exact nodesStructEq_refl nodes
  | succ fuel ih =>
    intro nodes seen stack
    match stack with
    | [] => exact nodesStructEq_refl nodes
    | nid :: rest =>
      simp only [propagateCrumbAux]
      by_cases hs : nid ∈ seen ∨ ¬ nid ∈ mappedVals
      · simp only [hs, if_true]
        exact ih nodes seen rest
      · simp only [hs, if_false]
        cases hl : List.lookup nid nodes with
        | none => exact ih nodes seen rest
        | some n =>
          by_cases hv : n.template_id = "visitreason"
          · simp only [hv, if_true]
            exact ih nodes _ _
          · simp only [hv, if_false]
            by_cases hc : n.crumb = none ∨ n.crumb = some ""
            · simp only [hc, if_true]
              exact nodesStructEq_trans
                (@nodesStructEq_setNode _ _ _ ({ n with crumb := some crumbValue }) hl rfl rfl rfl)
                (ih (setNode nodes nid { n with crumb := some crumbValue }) (nid :: seen) _)
            · simp only [hc, if_false]
              exact ih nodes _ _

theorem propagate_crumb_structEq (mapping : List (String × String)) (crumbValue : String)
    (nodes : List (String × Node)) (fromId : String) :
    nodesStructEq nodes (propagate_crumb mapping crumbValue nodes fromId).1 :=
  propagateCrumbAux_structEq _ _ _ _ _ _

theorem setCondTargetCrumb_structEq (reasons : List Reason)
    (nodes : List (String × Node)) (c : Cond) :
    nodesStructEq nodes (setCondTargetCrumb reasons nodes c) := by
  cases hr : c.result with
  | none =>
    simp only [setCondTargetCrumb, hr]
    exact nodesStructEq_refl nodes
  | some t =>
    simp only [setCondTargetCrumb, hr]
    cases ht : List.lookup t nodes with
    | none => exact nodesStructEq_refl nodes
    | some tn => exact nodesStructEq_setNode ht rfl rfl rfl

theorem propagateCondTarget_structEq (mapping : List (String × String))
    (reasons : List Reason) (label : String) (nodes : List (String × Node)) (c : Cond) :
    nodesStructEq nodes (propagateCondTarget mapping reasons label nodes c) := by
  cases hr : c.result with
  | none =>
    simp only [propagateCondTarget, hr]
    exact nodesStructEq_refl nodes
  | some t =>
    simp only [propagateCondTarget, hr]
    exact propagate_crumb_structEq _ _ nodes t

theorem visitreasonApply_structEq (mapping : List (String × String))
    (label : String) (nodes : List (String × Node)) (newId : String) (node0 : Node)
    (hl : List.lookup newId nodes = some node0) :
    nodesStructEq nodes (visitreasonApply mapping label nodes newId node0) := by
  unfold visitreasonApply
  simp only []
  refine nodesStructEq_trans
    (@nodesStructEq_setNode _ _ _ ({ node0 with crumb := some label }) hl rfl rfl rfl) ?_
  refine nodesStructEq_trans
    (nodesStructEq_foldl (setCondTargetCrumb ({ node0 with crumb := some label } : Node).reasons)
      (setCondTargetCrumb_structEq _)
      (nextConds ({ node0 with crumb := some label } : Node)) _) ?_
  refine nodesStructEq_trans
    (nodesStructEq_foldl
      (propagateCondTarget mapping ({ node0 with crumb := some label } : Node).reasons label)
      (propagateCondTarget_structEq mapping _ label)
      (nextConds ({ node0 with crumb := some label } : Node)) _) ?_
  cases nextDefault ({ node0 with crumb := some label } : Node) with
  | none => exact nodesStructEq_refl _
  | some d => exact propagate_crumb_structEq _ _ _ d

theorem adjustVisitreasonStep_structEq (mapping : List (String × String))
    (label : String) (nodes : List (String × Node)) (newId : String) :
    nodesStructEq nodes (adjustVisitreasonStep mapping label nodes newId) := by
  cases hl : List.lookup newId nodes with
  | none =>
    simp only [adjustVisitreasonStep, hl]
    exact nodesStructEq_refl nodes
  | some node =>
    simp only [adjustVisitreasonStep, hl]
    by_cases hv : node.template_id = "visitreason"
    · rw [if_pos hv]
      exact visitreasonApply_structEq mapping label nodes newId node hl
    · rw [if_neg hv]
      exact nodesStructEq_refl nodes

theorem visitreasonStage_structEq (mapping : List (String × String)) (label : String)
    (nodes : List (String × Node)) :
    nodesStructEq nodes (visitreasonStage mapping label nodes) := by
  unfold visitreasonStage
  exact nodesStructEq_foldl (fun nds p => adjustVisitreasonStep mapping label nds p.2)
    (fun s p => adjustVisitreasonStep_structEq mapping label s p.2) mapping nodes

theorem translateNodes_structEq (tr : Node → String) (mapping : List (String × String))
    (nodes : List (String × Node)) :
    nodesStructEq nodes (translateNodes tr mapping nodes) := by
  unfold translateNodes
  refine nodesStructEq_foldl _ (fun s q => ?_) mapping nodes
  cases hl : List.lookup q.2 s with
  | none => exact nodesStructEq_refl s
  | some nd =>
    exact @nodesStructEq_setNode _ _ _ ({ nd with other := tr nd }) hl rfl rfl rfl

theorem forceCorrectStep_frame (mapping : List (String × String)) (tsid : String)
    (edm : List (String × Option String)) (nodes : List (String × Node))
    (oldId newId k : String) (hk : k ≠ newId) :
    List.lookup k (forceCorrectStep mapping tsid edm nodes oldId newId) =
      List.lookup k nodes := by
  cases hl : List.lookup newId nodes with
  | none => simp only [forceCorrectStep, hl]
  | some nd =>
    simp only [forceCorrectStep, hl]
    by_cases ht : nd.template_id = "thanks"
    · rw [if_pos ht]
      exact lookup_setNode_ne nodes _ hk
    · rw [if_neg ht]
      exact lookup_setNode_ne nodes _ hk

theorem forceCorrectStep_thanksOK (mapping : List (String × String)) (tsid : String)
    (edm : List (String × Option String)) (nodes : List (String × Node))
    (oldId newId : String) :
    ∀ nd, List.lookup newId (forceCorrectStep mapping tsid edm nodes oldId newId) = some nd →
      nd.template_id = "thanks" → nd.next = none := by
  intro nd hnd hth
  cases hl : List.lookup newId nodes with
  | none =>
    simp only [forceCorrectStep, hl] at hnd
    cases hnd
  | some nd0 =>
    simp only [forceCorrectStep, hl] at hnd
    by_cases ht : nd0.template_id = "thanks"
    · rw [if_pos ht, lookup_setNode_self] at hnd
      injection hnd with hnd
      rw [← hnd]
    · rw [if_neg ht, lookup_setNode_self] at hnd
      injection hnd with hnd
      rw [← hnd] at hth
      exact absurd hth ht

theorem forceCorrectGo_frame (mapping : List (String × String)) (tsid : String)
    (edm : List (String × Option String)) :
    ∀ (todo : List (String × String)) (nodes : List (String × Node)) (k : String),
      (∀ q ∈ todo, ¬ q.2 = k) →
      List.lookup k
        (todo.foldl (fun nds p => forceCorrectStep mapping tsid edm nds p.1 p.2) nodes) =
      List.lookup k nodes := by
  intro todo
  induction todo with
  | nil => intro nodes k _; rfl
  | cons q rest ih =>
    intro nodes k hk
    simp only [List.foldl_cons]
    rw [ih _ k (fun p hp => hk p (by simp [hp]))]
    exact forceCorrectStep_frame mapping tsid edm nodes q.1 q.2 k
      (fun hc => hk q (by simp) hc.symm)

theorem forceCorrectGo_thanks (mapping : List (String × String)) (tsid : String)
    (edm : List (String × Option String)) :
    ∀ (todo : List (String × String)) (nodes : List (String × Node)),
      ∀ q ∈ todo, ∀ nd,
        List.lookup q.2
          (todo.foldl (fun nds p => forceCorrectStep mapping tsid edm nds p.1 p.2) nodes) =
          some nd →
        nd.template_id = "thanks" → nd.next = none := by
  intro todo
  induction todo with
  | nil => intro nodes q hq; simp at hq
  | cons q0 rest ih =>
    intro nodes q hq nd hnd hth
    simp only [List.foldl_cons] at hnd
    rcases List.mem_cons.mp hq with rfl | hq
    · by_cases hmem : q.2 ∈ rest.map Prod.snd
      · obtain ⟨q', hq', hq2⟩ := List.mem_map.mp hmem
        rw [← hq2] at hnd
        exact ih _ q' hq' nd hnd hth
      · rw [forceCorrectGo_frame mapping tsid edm rest _ q.2
          (fun p hp hc => hmem (hc ▸ List.mem_map_of_mem Prod.snd hp))] at hnd
        exact forceCorrectStep_thanksOK mapping tsid edm nodes q.1 q.2 nd hnd hth
    · exact ih _ q hq nd hnd hth

theorem forceCorrectStage_thanks (mapping : List (String × String)) (tsid : String)
    (nodes : List (String × Node)) :
    ∀ q ∈ mapping, ∀ nd,
      List.lookup q.2 (forceCorrectStage mapping tsid nodes) = some nd →
      nd.template_id = "thanks" → nd.next = none := by
  intro q hq nd hnd hth
  unfold forceCorrectStage at hnd
  exact forceCorrectGo_thanks mapping tsid (enDefaultMapOf mapping nodes) mapping nodes
    q hq nd hnd hth

theorem graft_branch_unfold (inner : InnerBody) (es xs label : String) (tr : Node → String)
    {g : GraftResult} (hg : graft_branch inner es xs label tr = some g) :
    ∃ ns : String,
      (clone_subgraph inner es).newStart = some ns ∧
      g.mapping = (spliceEntry (clone_subgraph inner es).body xs ns
        (clone_subgraph inner es).mapping).2 ∧
      g.body.nodes = translateNodes tr g.mapping
        (visitreasonStage g.mapping label
          (forceCorrectStage g.mapping es
            (startCrumbStage g.mapping es label
              (spliceEntry (clone_subgraph inner es).body xs ns
                (clone_subgraph inner es).mapping).1.nodes))) := by
  cases hns : (clone_subgraph inner es).newStart with
  | none =>
    simp only [graft_branch, hns] at hg
    cases hg
  | some ns =>
    simp only [graft_branch, hns] at hg
    injection hg with hg
    refine ⟨ns, rfl, ?_, ?_⟩
    · rw [← hg]
    · rw [← hg]
      rfl

/-- Claim C6: after grafting, every mapped node whose template_id is the
terminal thanks tag has next = null, regardless of what its next field
contained before the graft. -/
theorem claim_C6 (inner : InnerBody) (englishStart existingStart label : String)
    (tr : Node → String) (g : GraftResult)
    (hg : graft_branch inner englishStart existingStart label tr = some g)
    (o v : String) (hmem : (o, v) ∈ g.mapping) (nd : Node)
    (hnd : List.lookup v g.body.nodes = some nd) (hth : nd.template_id = "thanks") :
    nd.next = none := by
  obtain ⟨ns, hns, hmap, hnodes⟩ := graft_branch_unfold inner _ _ _ _ hg
  have hpres : nodesStructEq
      (forceCorrectStage g.mapping englishStart
        (startCrumbStage g.mapping englishStart label
          (spliceEntry (clone_subgraph inner englishStart).body existingStart ns
            (clone_subgraph inner englishStart).mapping).1.nodes))
      g.body.nodes := by
    rw [hnodes]
    exact nodesStructEq_trans (visitreasonStage_structEq _ _ _)
      (translateNodes_structEq _ _ _)
  have hse := hpres v
  cases h3 : List.lookup v
      (forceCorrectStage g.mapping englishStart
        (startCrumbStage g.mapping englishStart label
          (spliceEntry (clone_subgraph inner englishStart).body existingStart ns
            (clone_subgraph inner englishStart).mapping).1.nodes)) with
  | none =>
    rw [h3, hnd] at hse
    exact absurd hse (by simp [structEq])
  | some nd3 =>
    rw [h3, hnd] at hse
    obtain ⟨_, hta, hxa⟩ := hse
    have h6 := forceCorrectStage_thanks g.mapping englishStart
      (startCrumbStage g.mapping englishStart label
        (spliceEntry (clone_subgraph inner englishStart).body existingStart ns
          (clone_subgraph inner englishStart).mapping).1.nodes)
      (o, v) hmem nd3 h3 (hta.trans hth)
    rw [← hxa]
    exact h6

/-- Witness for claim C6 at a concrete document: the grafted thanks clone
ends with next = null. -/
theorem claim_C6_witness :
    ∃ nd, List.lookup "7" ((graft_branch docGood "2" "5" "Spanish"
        (fun n => n.other)).get (by decide)).body.nodes = some nd ∧ nd.next = none := by
  have hg : graft_branch docGood "2" "5" "Spanish" (fun n => n.other) =
      some ((graft_branch docGood "2" "5" "Spanish" (fun n => n.other)).get (by decide)) :=
    (Option.some_get (by decide)).symm
  have hval : List.lookup "7" ((graft_branch docGood "2" "5" "Spanish"
      (fun n => n.other)).get (by decide)).body.nodes =
      some ⟨"7", "page", "thanks", none, none, [], "", none⟩ := by decide
  refine ⟨_, hval, ?_⟩
  exact claim_C6 docGood "2" "5" "Spanish" (fun n => n.other) _ hg "3" "7" (by decide)
    _ hval (by decide)

theorem enDefaultMapOf_lookup (mapping : List (String × String))
    (nodes : List (String × Node)) :
    ∀ {o v : String}, (o, v) ∈ mapping → ∀ {en : Node}, List.lookup o nodes = some en →
      List.lookup o (enDefaultMapOf mapping nodes) = some (nextDefault en) := by
  induction mapping with
  | nil => intro o v hmem; simp at hmem
  | cons p rest ih =>
    intro o v hmem en hen
    by_cases hp : p.1 = o
    · cases hp
      simp only [enDefaultMapOf, List.filterMap_cons, hen, Option.map_some]
      simp [List.lookup]
    · rcases List.mem_cons.mp hmem with rfl | hmem
      · simp at hp
      · simp only [enDefaultMapOf, List.filterMap_cons]
        cases hl : List.lookup p.1 nodes with
        | none => exact ih hmem hen
        | some n0 =>
          have hb : (o == p.1) = false := beq_eq_false_iff_ne.mpr (fun h => hp h.symm)
          simp only [Option.map, List.lookup, hb]
          exact ih hmem hen

theorem forceCorrectStep_at (mapping : List (String × String)) (tsid : String)
    (edm : List (String × Option String)) (nodes nodes' : List (String × Node))
    (o v : String) (h : List.lookup v nodes = List.lookup v nodes') :
    List.lookup v (forceCorrectStep mapping tsid edm nodes o v) =
      List.lookup v (forceCorrectStep mapping tsid edm nodes' o v) := by
  cases hl : List.lookup v nodes with
  | none =>
    simp only [forceCorrectStep, hl]
    rw [h] at hl
    simp only [forceCorrectStep, hl]
  | some nd =>
    have hl' : List.lookup v nodes' = some nd := by rw [← h]; exact hl
    simp only [forceCorrectStep, hl, hl']
    by_cases ht : nd.template_id = "thanks"
    · rw [if_pos ht, if_pos ht, lookup_setNode_self, lookup_setNode_self]
    · rw [if_neg ht, if_neg ht, lookup_setNode_self, lookup_setNode_self]

theorem forceCorrectGo_at (mapping : List (String × String)) (tsid : String)
    (edm : List (String × Option String)) :
    ∀ (todo : List (String × String)) (nodes : List (String × Node)),
      (todo.map Prod.snd).Nodup →
      ∀ q ∈ todo,
        List.lookup q.2
          (todo.foldl (fun nds p => forceCorrectStep mapping tsid edm nds p.1 p.2) nodes) =
        List.lookup q.2 (forceCorrectStep mapping tsid edm nodes q.1 q.2) := by
  intro todo
  induction todo with
  | nil => intro nodes _ q hq; simp at hq
  | cons q0 rest ih =>
    intro nodes hnd q hq
    simp only [List.map_cons, List.nodup_cons] at hnd
    simp only [List.foldl_cons]
    rcases List.mem_cons.mp hq with rfl | hq
    · rw [forceCorrectGo_frame mapping tsid edm rest _ q.2
        (fun p hp hc => hnd.1 (hc ▸ List.mem_map_of_mem Prod.snd hp))]
    · rw [ih _ hnd.2 q hq]
      refine forceCorrectStep_at mapping tsid edm _ nodes q.1 q.2 ?_
      exact forceCorrectStep_frame mapping tsid edm nodes q0.1 q0.2 q.2
        (fun hc => hnd.1 (hc ▸ List.mem_map_of_mem Prod.snd hq))

theorem forceCorrectStep_value (mapping : List (String × String)) (tsid : String)
    (edm : List (String × Option String)) (nodes : List (String × Node))
    (o v : String) (nd : Node) (hnd : List.lookup v nodes = some nd)
    (hth : ¬ nd.template_id = "thanks") (d m : String)
    (hjoin : (List.lookup o edm).join = some d)
    (hm : List.lookup d mapping = some m) :
    ∃ nd', List.lookup v (forceCorrectStep mapping tsid edm nodes o v) = some nd' ∧
      nd'.template_id = nd.template_id ∧ nextDefault nd' = some m := by
  simp only [forceCorrectStep, hnd, if_neg hth, hjoin, hm]
  rw [lookup_setNode_self]
  refine ⟨_, rfl, rfl, ?_⟩
  split
  · simp [nextDefault, hm]
  · simp [nextDefault]

/-- Counterexample to claim C4 as stated: grafting the self-referential
template of docSelfLoop leaves the mapped entry node with a default edge
to itself, so the cycle guard does not prevent every self-loop. -/
theorem claim_C4_counterexample :
    ("2", "5") ∈ ((graft_branch docSelfLoop "2" "5" "Spanish"
      (fun n => n.other)).get (by decide)).mapping ∧
    (List.lookup "5" ((graft_branch docSelfLoop "2" "5" "Spanish"
      (fun n => n.other)).get (by decide)).body.nodes).map nextDefault =
      some (some "5") := by
  decide

/-- Claim C4 as amended: the cycle guard does apply its fallback, but the
fallback maps the template default through the mapping table, which yields
the very value the guard rejected; so a mapped non-terminal node whose
template default is itself mapped always ends with its default equal to
the mapping image of the template default, and a self-loop therefore
persists exactly when that image is the node itself (as with a
self-referential template node). -/
theorem claim_C4_amended (mapping : List (String × String)) (tsid : String)
    (nodes : List (String × Node)) (hvnd : (mapping.map Prod.snd).Nodup)
    (o v : String) (hmem : (o, v) ∈ mapping)
    (en nd : Node) (hen : List.lookup o nodes = some en)
    (hnd : List.lookup v nodes = some nd) (hth : ¬ nd.template_id = "thanks")
    (d : String) (hd : nextDefault en = some d)
    (m : String) (hm : List.lookup d mapping = some m) :
    ∃ nd', List.lookup v (forceCorrectStage mapping tsid nodes) = some nd' ∧
      nextDefault nd' = some m ∧
      ((nextDefault nd' = some v) ↔ m = v) := by
  have hedm : List.lookup o (enDefaultMapOf mapping nodes) = some (nextDefault en) :=
    enDefaultMapOf_lookup mapping nodes hmem hen
  have hjoin : (List.lookup o (enDefaultMapOf mapping nodes)).join = some d := by
    rw [hedm, hd]
    rfl
  obtain ⟨nd', hnd', _, hdef⟩ := forceCorrectStep_value mapping tsid
    (enDefaultMapOf mapping nodes) nodes o v nd hnd hth d m hjoin hm
  refine ⟨nd', ?_, hdef, by rw [hdef]; simp⟩
  unfold forceCorrectStage
  rw [forceCorrectGo_at mapping tsid (enDefaultMapOf mapping nodes) mapping nodes hvnd
    (o, v) hmem]
  exact hnd'

/-- Witness for claim C4 as amended at concrete inputs mirroring a graft
of the docGood template. -/
theorem claim_C4_amended_witness :
    ∃ nd', List.lookup "5"
        (forceCorrectStage [("2", "5"), ("3", "7")] "2"
          [("2", mkNode "2" "welcome" (some ⟨[], some "3"⟩)),
           ("3", mkNode "3" "thanks" none),
           ("5", mkNode "5" "welcome" (some ⟨[], some "7"⟩)),
           ("7", mkNode "7" "thanks" none)]) = some nd' ∧
      nextDefault nd' = some "7" ∧ ((nextDefault nd' = some "5") ↔ "7" = "5") :=
  claim_C4_amended [("2", "5"), ("3", "7")] "2" _ (by decide) "2" "5" (by decide)
    (mkNode "2" "welcome" (some ⟨[], some "3"⟩)) (mkNode "5" "welcome" (some ⟨[], some "7"⟩))
    (by decide) (by decide) (by decide) "3" (by decide) "7" (by decide)

theorem setNode_append_left (a b : List (String × Node)) (k : String) (v : Node)
    (h : k ∈ nodeKeys a) : setNode (a ++ b) k v = setNode a k v ++ b := by
  induction a with
  | nil => simp [nodeKeys] at h
  | cons p rest ih =>
    obtain ⟨k0, v0⟩ := p
    by_cases h0 : k0 = k
    · simp [setNode, h0]
    · rw [nodeKeys_cons] at h
      rcases List.mem_cons.mp h with h | h
      · exact absurd h.symm h0
      · simp [setNode, h0, ih h]

theorem lookup_delNode_self_nodup (l : List (String × Node)) (k : String)
    (h : (nodeKeys l).Nodup) : List.lookup k (delNode l k) = none := by
  induction l with
  | nil => simp [delNode]
  | cons p rest ih =>
    obtain ⟨k0, v0⟩ := p
    rw [nodeKeys_cons] at h
    have h2 := List.nodup_cons.mp h
    by_cases h0 : k0 = k
    · subst h0
      rw [delNode_cons_self]
      rw [lookup_eq_none_iff]
      exact h2.1
    · have hb : (k == k0) = false := beq_eq_false_iff_ne.mpr (fun hh => h0 hh.symm)
      simp only [delNode, h0, if_false, List.lookup, hb]
      exact ih h2.2

theorem lookup_map_snd (g : String → String) (l : List (String × String)) (k : String) :
    List.lookup k (l.map (fun q => (q.1, g q.2))) = (List.lookup k l).map g := by
  induction l with
  | nil => simp
  | cons p rest ih =>
    by_cases h : k = p.1
    · subst h
      simp [List.lookup]
    · have hb : (k == p.1) = false := beq_eq_false_iff_ne.mpr h
      simp only [List.map_cons, List.lookup, hb, ih]

theorem lookup_zip_of_mem (O : List String) :
    ∀ (fr : List String), O.Nodup →
      ∀ {o u : String}, (o, u) ∈ O.zip fr → List.lookup o (O.zip fr) = some u := by
  induction O with
  | nil => intro fr _ o u h; simp at h
  | cons a rest ih =>
    intro fr hnd o u h
    cases fr with
    | nil => simp at h
    | cons b frest =>
      have h2 := List.nodup_cons.mp hnd
      simp only [List.zip_cons_cons] at h ⊢
      rcases List.mem_cons.mp h with heq | h
      · injection heq with h1 h3
        subst h1
        subst h3
        simp [List.lookup]
      · have ho : o ∈ rest := (List.of_mem_zip h).1
        have hne : ¬ o = a := fun hc => h2.1 (hc ▸ ho)
        have hb : (o == a) = false := beq_eq_false_iff_ne.mpr hne
        simp only [List.lookup, hb]
        exact ih frest h2.2 h

theorem mem_zip_of_mem_left (O : List String) :
    ∀ (fr : List String), ∀ {o : String}, o ∈ O → fr.length = O.length →
      ∃ u, (o, u) ∈ O.zip fr := by
  induction O with
  | nil => intro fr o h; simp at h
  | cons a rest ih =>
    intro fr o ho hlen
    cases fr with
    | nil => simp at hlen
    | cons b frest =>
      simp only [List.zip_cons_cons]
      rcases List.mem_cons.mp ho with rfl | ho
      · exact ⟨b, by simp⟩
      · obtain ⟨u, hu⟩ := ih frest ho (by simpa using hlen)
        exact ⟨u, by simp [hu]⟩

theorem map_subst_nodup (a x : String) :
    ∀ (l : List String), l.Nodup → ¬ x ∈ l →
      (l.map (fun u => if u = a then x else u)).Nodup := by
  intro l
  induction l with
  | nil => intro _ _; simp
  | cons b rest ih =>
    intro hnd hx
    have h2 := List.nodup_cons.mp hnd
    simp only [List.map_cons]
    refine List.nodup_cons.mpr ⟨?_, ih h2.2 (fun hc => hx (by simp [hc]))⟩
    intro hmem
    obtain ⟨c, hc, hceq⟩ := List.mem_map.mp hmem
    by_cases hb : b = a
    · rw [if_pos hb] at hceq
      by_cases hcc : c = a
      · rw [if_pos hcc] at hceq
        exact h2.1 (hb ▸ hcc ▸ hc)
      · rw [if_neg hcc] at hceq
        exact hx (by simp [← hceq, hc])
    · rw [if_neg hb] at hceq
      by_cases hcc : c = a
      · rw [if_pos hcc] at hceq
        exact hx (by simp [hceq])
      · rw [if_neg hcc] at hceq
        exact h2.1 (hceq ▸ hc)

theorem lookup_mem {β : Type} {l : List (String × β)} {k : String} {v : β}
    (h : List.lookup k l = some v) : (k, v) ∈ l := by
  induction l with
  | nil => simp [List.lookup] at h
  | cons p rest ih =>
    by_cases hk : k = p.1
    · subst hk
      have hb : (p.1 == p.1) = true := by simp
      simp only [List.lookup, hb] at h
      injection h with h
      exact List.mem_cons.mpr (Or.inl (by rw [← h]))
    · have hb : (k == p.1) = false := beq_eq_false_iff_ne.mpr hk
      simp only [List.lookup, hb] at h
      exact List.mem_cons.mpr (Or.inr (ih h))

theorem snd_nodup_inj {β : Type} [DecidableEq β] {l : List (String × β)}
    (hnd : (l.map Prod.snd).Nodup) {a a' : String} {b : β}
    (h1 : (a, b) ∈ l) (h2 : (a', b) ∈ l) : a = a' := by
  induction l with
  | nil => simp at h1
  | cons p rest ih =>
    obtain ⟨pa, pb⟩ := p
    rw [List.map_cons, List.nodup_cons] at hnd
    rcases List.mem_cons.mp h1 with h1 | h1 <;> rcases List.mem_cons.mp h2 with h2 | h2
    · injection h1 with h1a h1b
      injection h2 with h2a h2b
      rw [h1a, h2a]
    · injection h1 with h1a h1b
      refine absurd ?_ hnd.1
      rw [← h1b]
      exact List.mem_map.mpr ⟨(a', b), h2, rfl⟩
    · injection h2 with h2a h2b
      refine absurd ?_ hnd.1
      rw [← h2b]
      exact List.mem_map.mpr ⟨(a, b), h1, rfl⟩
    · exact ih hnd.2 h1 h2

theorem forall₂_mem_left {α β : Type} {R : α → β → Prop} :
    ∀ {l : List α} {r : List β}, List.Forall₂ R l r →
      ∀ {a : α}, a ∈ l → ∃ b ∈ r, R a b := by
  intro l r h
  induction h with
  | nil => intro a ha; simp at ha
  | cons hab htl ih =>
    intro a ha
    rcases List.mem_cons.mp ha with rfl | ha
    · exact ⟨_, by simp, hab⟩
    · obtain ⟨b, hb, hr⟩ := ih ha
      exact ⟨b, by simp [hb], hr⟩

theorem forall₂_mem_right {α β : Type} {R : α → β → Prop} :
    ∀ {l : List α} {r : List β}, List.Forall₂ R l r →
      ∀ {b : β}, b ∈ r → ∃ a ∈ l, R a b := by
  intro l r h
  induction h with
  | nil => intro b hb; simp at hb
  | cons hab htl ih =>
    intro b hb
    rcases List.mem_cons.mp hb with rfl | hb
    · exact ⟨_, by simp, hab⟩
    · obtain ⟨a, ha, hr⟩ := ih hb
      exact ⟨a, by simp [ha], hr⟩

theorem nextConds_congr {n m : Node} (h : n.next = m.next) : nextConds n = nextConds m := by
  simp [nextConds, h]

theorem nextDefault_congr {n m : Node} (h : n.next = m.next) :
    nextDefault n = nextDefault m := by
  simp [nextDefault, h]

theorem walk_nodup (inner : InnerBody) (s : String) : (walk_subgraph inner s).Nodup :=
  walkAux_nodup inner.nodes (walkFuel inner.nodes) [] [some s] (by simp)

theorem start_mem_walk (inner : InnerBody) (s : String)
    (h : (List.lookup s inner.nodes).isSome = true) : s ∈ walk_subgraph inner s :=
  walk_complete inner s s (ReachableFrom.start h)

theorem walk_closed (inner : InnerBody) (s : String) :
    ∀ nid ∈ walk_subgraph inner s, ∀ n, List.lookup nid inner.nodes = some n →
      ∀ t, some t ∈ successors n → (List.lookup t inner.nodes).isSome = true →
        t ∈ walk_subgraph inner s := by
  intro nid hnid n hn t hsucc hex
  exact walkAux_closed inner.nodes (walkFuel inner.nodes) [] [some s]
    (by simp [walkPhi, walkFuel, succCount]; omega) (by intro a ha; simp at ha)
    nid hnid n hn t hsucc hex

theorem clone_frame_full (inner : InnerBody) (startId : String) :
    ∃ newEntries,
      (clone_subgraph inner startId).body.nodes = inner.nodes ++ newEntries ∧
      (∀ k ∈ nodeKeys newEntries, ¬ k ∈ nodeKeys inner.nodes) ∧
      (nodeKeys newEntries).Nodup := by
  have hb : (0 : Int) ≤ max_node_id inner + 1 := by
    have := max_node_id_nonneg inner
    omega
  obtain ⟨ne, hne, hprop, hnd⟩ := clonePass1_frame (walk_subgraph inner startId)
    (max_node_id inner + 1) inner.nodes [] hb (walk_fresh_not_mem inner startId)
  have hdisj : ∀ k ∈ nodeKeys ne, ¬ k ∈ nodeKeys inner.nodes := by
    intro k hk
    obtain ⟨i, hi, hk⟩ := hprop k hk
    rw [hk]
    exact freshId_not_mem inner i
  obtain ⟨ne', hne', hkeys⟩ := clonePass2_go_append
    ((walk_subgraph inner startId).zip
      (freshIds (max_node_id inner + 1) (walk_subgraph inner startId).length))
    ((walk_subgraph inner startId).zip
      (freshIds (max_node_id inner + 1) (walk_subgraph inner startId).length))
    inner.nodes ne
    (fun q hq hmem => by
      obtain ⟨i, hi, hfi⟩ := mem_freshIds _ _ q.2 (List.of_mem_zip hq).2
      rw [hfi] at hmem
      exact freshId_not_mem inner i hmem)
  refine ⟨ne', ?_, ?_, by rw [hkeys]; exact hnd⟩
  · unfold clone_subgraph
    simp only []
    rw [clonePass1_mapping]
    simp only [List.nil_append]
    unfold clonePass2
    rw [hne]
    exact hne'
  · intro k hk
    rw [hkeys] at hk
    exact hdisj k hk

theorem clone_subgraph_mapping_zip (inner : InnerBody) (startId : String) :
    (clone_subgraph inner startId).mapping = cloneZip inner startId :=
  clone_subgraph_mapping inner startId

theorem cloneZip_keys_mem {inner : InnerBody} {s : String} {o u : String}
    (h : (o, u) ∈ cloneZip inner s) : o ∈ walk_subgraph inner s :=
  (List.of_mem_zip h).1

theorem cloneZip_val_fresh {inner : InnerBody} {s : String} {o u : String}
    (h : (o, u) ∈ cloneZip inner s) : ¬ u ∈ nodeKeys inner.nodes := by
  obtain ⟨i, hi, hfi⟩ := mem_freshIds _ _ u (List.of_mem_zip h).2
  rw [hfi]
  exact freshId_not_mem inner i

theorem cloneZip_val_nodup (inner : InnerBody) (s : String) :
    ((cloneZip inner s).map Prod.snd).Nodup := by
  have hb : (0 : Int) ≤ max_node_id inner + 1 := by
    have := max_node_id_nonneg inner
    omega
  unfold cloneZip
  rw [List.map_snd_zip _ _ (by rw [freshIds_length])]
  exact freshIds_nodup _ _ hb

theorem lookup_cloneZip_of_mem (inner : InnerBody) (s : String) {o : String}
    (h : o ∈ walk_subgraph inner s) :
    ∃ u, List.lookup o (cloneZip inner s) = some u := by
  obtain ⟨u, hu⟩ := mem_zip_of_mem_left (walk_subgraph inner s)
    (freshIds (max_node_id inner + 1) (walk_subgraph inner s).length) h
    (by rw [freshIds_length])
  exact ⟨u, lookup_zip_of_mem (walk_subgraph inner s) _ (walk_nodup inner s) hu⟩

theorem cloneZip_val_unique {inner : InnerBody} {s : String} {o o' u : String}
    (h1 : (o, u) ∈ cloneZip inner s) (h2 : (o', u) ∈ cloneZip inner s) : o = o' :=
  snd_nodup_inj (cloneZip_val_nodup inner s) h1 h2

theorem rewriteRefs_tid (mapping : List (String × String)) (n : Node) :
    (rewriteRefs mapping n).template_id = n.template_id := by
  cases hnx : n.next with
  | none => simp [rewriteRefs, hnx]
  | some nx => simp [rewriteRefs, hnx]

theorem rewriteRefs_conds (mapping : List (String × String)) (n : Node) :
    (nextConds (rewriteRefs mapping n)).map (fun c => c.result) =
      (nextConds n).map (fun c =>
        c.result.map (fun r => (List.lookup r mapping).getD r)) := by
  cases hnx : n.next with
  | none => simp [rewriteRefs, nextConds, hnx]
  | some nx =>
    simp only [rewriteRefs, hnx, nextConds, List.map_map]
    refine List.map_congr_left ?_
    intro c _
    cases hc : c.result with
    | none => simp [Function.comp, hc]
    | some r => cases hm : List.lookup r mapping <;> simp [Function.comp, hc, hm]

theorem rewriteRefs_default (mapping : List (String × String)) (n : Node) :
    nextDefault (rewriteRefs mapping n) =
      (nextDefault n).map (fun d => (List.lookup d mapping).getD d) := by
  cases hnx : n.next with
  | none => simp [rewriteRefs, nextDefault, hnx]
  | some nx =>
    simp only [rewriteRefs, hnx, nextDefault]
    cases hd : nx.default with
    | none => rfl
    | some d => cases hm : List.lookup d mapping <;> simp [hm]

theorem graftMapping_lookup (inner : InnerBody) (s x ns : String) (t : String) :
    List.lookup t (graftMapping inner s x ns) =
      (List.lookup t (cloneZip inner s)).map (fun u => if u = ns then x else u) :=
  lookup_map_snd (fun u => if u = ns then x else u) (cloneZip inner s) t

theorem graftMapping_snd_map (inner : InnerBody) (s x ns : String) :
    (graftMapping inner s x ns).map Prod.snd =
      ((cloneZip inner s).map Prod.snd).map (fun u => if u = ns then x else u) := by
  unfold graftMapping
  rw [List.map_map, List.map_map]
  rfl

theorem graftMapping_vals_nodup (inner : InnerBody) (s x ns : String)
    (hxk : x ∈ nodeKeys inner.nodes) :
    ((graftMapping inner s x ns).map Prod.snd).Nodup := by
  rw [graftMapping_snd_map]
  refine map_subst_nodup ns x _ (cloneZip_val_nodup inner s) ?_
  intro hmem
  obtain ⟨q, hq, hqx⟩ := List.mem_map.mp hmem
  exact cloneZip_val_fresh (show (q.1, q.2) ∈ cloneZip inner s from hq) (hqx ▸ hxk)

theorem graftMapping_val_ne_ns (inner : InnerBody) (s x ns : String)
    (hxns : x ≠ ns) {t u : String}
    (h : List.lookup t (graftMapping inner s x ns) = some u) : u ≠ ns := by
  rw [graftMapping_lookup] at h
  cases hz : List.lookup t (cloneZip inner s) with
  | none => rw [hz] at h; cases h
  | some u0 =>
    rw [hz] at h
    injection h with h
    have hb : u = if u0 = ns then x else u0 := h.symm
    by_cases h0 : u0 = ns
    · rw [if_pos h0] at hb
      rw [hb]
      exact hxns
    · rw [if_neg h0] at hb
      rw [hb]
      exact h0

theorem graftMapping_start (inner : InnerBody) (s x ns : String)
    (hzs : List.lookup s (cloneZip inner s) = some ns) :
    List.lookup s (graftMapping inner s x ns) = some x := by
  rw [graftMapping_lookup, hzs]
  simp

theorem graftMapping_char (inner : InnerBody) (s x ns : String) {t u : String}
    (h : List.lookup t (graftMapping inner s x ns) = some u) :
    ∃ u0, List.lookup t (cloneZip inner s) = some u0 ∧
      u = (if u0 = ns then x else u0) := by
  rw [graftMapping_lookup] at h
  cases hz : List.lookup t (cloneZip inner s) with
  | none => rw [hz] at h; cases h
  | some u0 =>
    rw [hz] at h
    injection h with h
    exact ⟨u0, rfl, h.symm⟩

theorem spliceEntry_eq (body : InnerBody) (xs ns : String)
    (mapping : List (String × String)) {xnode csn : Node}
    (hx0 : List.lookup xs body.nodes = some xnode)
    (hns0 : List.lookup ns body.nodes = some csn) :
    spliceEntry body xs ns mapping =
      ((⟨body.starting_node_id,
          delNode (setNode body.nodes xs { csn with id := xnode.id }) ns⟩ : InnerBody),
        mapping.map (fun q => (q.1, if q.2 = ns then xs else q.2))) := by
  simp only [spliceEntry, hx0, hns0]

theorem startCrumbStage_structEq (mapping : List (String × String))
    (tsid label : String) (nodes : List (String × Node)) :
    nodesStructEq nodes (startCrumbStage mapping tsid label nodes) := by
  cases hm : List.lookup tsid mapping with
  | none =>
    simp only [startCrumbStage, hm]
    exact nodesStructEq_refl nodes
  | some k =>
    simp only [startCrumbStage, hm]
    by_cases hk : k ≠ ""
    · rw [if_pos hk]
      cases hl : List.lookup k nodes with
      | none => exact nodesStructEq_refl nodes
      | some nd => exact nodesStructEq_setNode hl rfl rfl rfl
    · rw [if_neg hk]
      exact nodesStructEq_refl nodes

theorem startCrumbStage_frame (mapping : List (String × String))
    (tsid label : String) (nodes : List (String × Node)) {x k : String}
    (hm : List.lookup tsid mapping = some x) (hk : k ≠ x) :
    List.lookup k (startCrumbStage mapping tsid label nodes) = List.lookup k nodes := by
  simp only [startCrumbStage, hm]
  by_cases hx : x ≠ ""
  · rw [if_pos hx]
    cases hl : List.lookup x nodes with
    | none => rfl
    | some nd => exact lookup_setNode_ne nodes _ hk
  · rw [if_neg hx]

theorem forceCorrectStep_thanks_value (mapping : List (String × String)) (tsid : String)
    (edm : List (String × Option String)) (nodes : List (String × Node))
    (o v : String) {nd : Node} (hnd : List.lookup v nodes = some nd)
    (hth : nd.template_id = "thanks") :
    List.lookup v (forceCorrectStep mapping tsid edm nodes o v) =
      some { nd with next := none } := by
  simp only [forceCorrectStep, hnd, if_pos hth, lookup_setNode_self]

theorem forceCorrectStep_shape (mapping : List (String × String)) (tsid : String)
    (edm : List (String × Option String)) (nodes : List (String × Node))
    (o v : String) {nd : Node} (hnd : List.lookup v nodes = some nd)
    (hth : ¬ nd.template_id = "thanks") :
    ∃ nx2 : NodeNext,
      List.lookup v (forceCorrectStep mapping tsid edm nodes o v) =
        some { nd with next := some nx2 } ∧
      nx2.conditions = nextConds nd ∧
      nx2.default =
        (match (List.lookup o edm).join with
         | some d =>
           (match List.lookup d mapping with
            | some m => some m
            | none => nextDefault nd)
         | none => nextDefault nd) := by
  have hc0 : (match nd.next with
      | some nx => nx
      | none => (⟨[], none⟩ : NodeNext)).conditions = nextConds nd := by
    cases hnx : nd.next <;> simp [nextConds, hnx]
  have hd0 : (match nd.next with
      | some nx => nx
      | none => (⟨[], none⟩ : NodeNext)).default = nextDefault nd := by
    cases hnx : nd.next <;> simp [nextDefault, hnx]
  simp only [forceCorrectStep, hnd, if_neg hth, lookup_setNode_self]
  cases hjoin : (List.lookup o edm).join with
  | none =>
    refine ⟨_, rfl, ?_, ?_⟩
    · split
      · exact hc0
      · exact hc0
    · split
      · exact hd0
      · exact hd0
  | some d =>
    cases hm : List.lookup d mapping with
    | none =>
      simp only [hm]
      refine ⟨_, rfl, ?_, ?_⟩
      · split
        · exact hc0
        · exact hc0
      · split
        · exact hd0
        · exact hd0
    | some m =>
      simp only [hm]
      refine ⟨_, rfl, ?_, ?_⟩
      · split
        · exact hc0
        · exact hc0
      · split
        · rfl
        · rfl

theorem rewriteRefs_next_id (mapping : List (String × String)) (n : Node) (i : String) :
    (rewriteRefs mapping { n with id := i }).next = (rewriteRefs mapping n).next := by
  cases hnx : n.next with
  | none => simp [rewriteRefs, hnx]
  | some nx => simp [rewriteRefs, hnx]

theorem thanksTerminal_spec {nodes : List (String × Node)} {order : List String}
    (h : thanksTerminal nodes order = true) {o : String} (ho : o ∈ order) {n : Node}
    (hn : List.lookup o nodes = some n) (hth : n.template_id = "thanks") :
    nextConds n = [] ∧ nextDefault n = none := by
  have h2 := List.all_eq_true.mp h o ho
  rw [hn] at h2
  simp only [hth, if_pos] at h2
  rw [Bool.and_eq_true] at h2
  have h3 := h2
  constructor
  · cases hc : nextConds n with
    | nil => rfl
    | cons c rest => rw [hc] at h3; simp [List.isEmpty] at h3
  · cases hd : nextDefault n with
    | none => rfl
    | some d => rw [hd] at h3; simp [Option.isNone] at h3

theorem noDangling_spec {nodes : List (String × Node)} {order : List String}
    (h : noDangling nodes order = true) {o : String} (ho : o ∈ order) {n : Node}
    (hn : List.lookup o nodes = some n) {r : String} (hr : some r ∈ successors n) :
    (List.lookup r nodes).isSome = true := by
  have h2 := List.all_eq_true.mp h o ho
  rw [hn] at h2
  have h3 := List.all_eq_true.mp h2 (some r) hr
  exact h3

theorem mem_successors_cond {n : Node} {c : Cond} (hc : c ∈ nextConds n) {r : String}
    (hr : c.result = some r) : some r ∈ successors n := by
  unfold successors
  refine List.mem_append.mpr (Or.inl ?_)
  exact List.mem_map.mpr ⟨c, hc, hr⟩

theorem mem_successors_default {n : Node} {d : String} (hd : nextDefault n = some d) :
    some d ∈ successors n := by
  unfold successors
  exact List.mem_append.mpr (Or.inr (by simp [hd]))

theorem forall₂_map_pair {α β γ : Type} {R : β → γ → Prop} {f : α → β} {g : α → γ} :
    ∀ {l : List α}, (∀ a ∈ l, R (f a) (g a)) → List.Forall₂ R (l.map f) (l.map g) := by
  intro l
  induction l with
  | nil => intro _; simp
  | cons a rest ih =>
    intro h
    simp only [List.map_cons]
    exact List.Forall₂.cons (h a (by simp)) (ih (fun b hb => h b (by simp [hb])))

theorem graft_S0_facts (inner : InnerBody) (es xs ns : String) {xnode sn : Node}
    (hx : List.lookup xs inner.nodes = some xnode)
    (hsn : List.lookup es inner.nodes = some sn)
    (hzs : List.lookup es (cloneZip inner es) = some ns) :
    (spliceEntry (clone_subgraph inner es).body xs ns
        (clone_subgraph inner es).mapping).2 = graftMapping inner es xs ns ∧
    (∃ nd0, List.lookup xs (spliceEntry (clone_subgraph inner es).body xs ns
        (clone_subgraph inner es).mapping).1.nodes = some nd0 ∧
      nd0.id = xnode.id ∧ nd0.template_id = sn.template_id ∧
      nd0.next = (rewriteRefs (cloneZip inner es) sn).next) ∧
    List.lookup ns (spliceEntry (clone_subgraph inner es).body xs ns
        (clone_subgraph inner es).mapping).1.nodes = none ∧
    (∀ k, k ≠ xs → k ≠ ns →
      List.lookup k (spliceEntry (clone_subgraph inner es).body xs ns
        (clone_subgraph inner es).mapping).1.nodes =
      List.lookup k (clone_subgraph inner es).body.nodes) := by
  have hxkeys : xs ∈ nodeKeys inner.nodes :=
    (lookup_isSome_iff inner.nodes xs).mp (by simp [hx])
  have hnsk : ¬ ns ∈ nodeKeys inner.nodes := cloneZip_val_fresh (lookup_mem hzs)
  have hxns : xs ≠ ns := fun hc => hnsk (hc ▸ hxkeys)
  have hxc : List.lookup xs (clone_subgraph inner es).body.nodes = some xnode := by
    rw [clone_subgraph_lookup_old inner es xs hxkeys]
    exact hx
  have hnsc : List.lookup ns (clone_subgraph inner es).body.nodes =
      some (rewriteRefs (cloneZip inner es) { sn with id := ns }) :=
    clone_subgraph_lookup_new inner es (lookup_mem hzs) hsn
  have hsplice := spliceEntry_eq (clone_subgraph inner es).body xs ns
    (clone_subgraph inner es).mapping hxc hnsc
  refine ⟨?_, ?_, ?_, ?_⟩
  · rw [hsplice]
    show (clone_subgraph inner es).mapping.map _ = _
    rw [clone_subgraph_mapping_zip]
    rfl
  · rw [hsplice]
    refine ⟨({ rewriteRefs (cloneZip inner es) { sn with id := ns } with
      id := xnode.id } : Node), ?_, ?_, ?_, ?_⟩
    · show List.lookup xs (delNode _ ns) = _
      rw [lookup_delNode_ne _ hxns, lookup_setNode_self]
    · rfl
    · show (rewriteRefs (cloneZip inner es) { sn with id := ns }).template_id =
        sn.template_id
      rw [rewriteRefs_tid]
    · show (rewriteRefs (cloneZip inner es) { sn with id := ns }).next =
        (rewriteRefs (cloneZip inner es) sn).next
      exact rewriteRefs_next_id (cloneZip inner es) sn ns
  · rw [hsplice]
    show List.lookup ns (delNode (setNode (clone_subgraph inner es).body.nodes xs _) ns) = none
    obtain ⟨ne2, hne2, hdisj2, hnd2⟩ := clone_frame_full inner es
    rw [hne2, setNode_append_left inner.nodes ne2 xs _ hxkeys,
      delNode_append_left _ ne2 (by rw [keys_setNode_of_mem inner.nodes _ hxkeys]; exact hnsk),
      lookup_append_right _ (by rw [keys_setNode_of_mem inner.nodes _ hxkeys]; exact hnsk)]
    exact lookup_delNode_self_nodup ne2 ns hnd2
  · intro k hk1 hk2
    rw [hsplice]
    show List.lookup k (delNode (setNode (clone_subgraph inner es).body.nodes xs _) ns) = _
    rw [lookup_delNode_ne _ hk2, lookup_setNode_ne _ _ hk1]

theorem graft_S2_char (inner : InnerBody) (es xs label : String) {xnode : Node} {ns : String}
    (hx : List.lookup xs inner.nodes = some xnode)
    (hzs : List.lookup es (cloneZip inner es) = some ns)
    (hxO : ¬ xs ∈ walk_subgraph inner es)
    (hnd : noDangling inner.nodes (walk_subgraph inner es) = true)
    (hth : thanksTerminal inner.nodes (walk_subgraph inner es) = true) :
    ∀ t ∈ walk_subgraph inner es, ∀ u,
      List.lookup t (graftMapping inner es xs ns) = some u →
      ∃ nA nB, List.lookup t inner.nodes = some nA ∧
        List.lookup u
          (forceCorrectStage (graftMapping inner es xs ns) es
            (startCrumbStage (graftMapping inner es xs ns) es label
              (spliceEntry (clone_subgraph inner es).body xs ns
              (clone_subgraph inner es).mapping).1.nodes)) = some nB ∧
        nB.template_id = nA.template_id ∧
        List.Forall₂
          (graftRelOpt (walk_subgraph inner es) es ns (graftMapping inner es xs ns))
          ((nextConds nA).map (fun c => c.result))
          ((nextConds nB).map (fun c => c.result)) ∧
        graftRelOpt (walk_subgraph inner es) es ns (graftMapping inner es xs ns)
          (nextDefault nA) (nextDefault nB) := by
  have hes_mem : es ∈ walk_subgraph inner es := cloneZip_keys_mem (lookup_mem hzs)
  obtain ⟨sn, hsn⟩ := Option.isSome_iff_exists.mp (walk_subgraph_keys inner es es hes_mem)
  obtain ⟨hmp2, ⟨nd0, hnd0, hnd0id, hnd0tid, hnd0next⟩, hnsS0, hS0frame⟩ :=
    graft_S0_facts inner es xs ns hx hsn hzs
  have hxkeys : xs ∈ nodeKeys inner.nodes :=
    (lookup_isSome_iff inner.nodes xs).mp (by simp [hx])
  have hnsk : ¬ ns ∈ nodeKeys inner.nodes := cloneZip_val_fresh (lookup_mem hzs)
  have hxns : xs ≠ ns := fun hc => hnsk (hc ▸ hxkeys)
  have hmpx : List.lookup es (graftMapping inner es xs ns) = some xs :=
    graftMapping_start inner es xs ns hzs
  have hvnd := graftMapping_vals_nodup inner es xs ns hxkeys
  intro t htO u hu
  obtain ⟨u0, hz0, hueq⟩ := graftMapping_char inner es xs ns hu
  obtain ⟨nA, hnA⟩ := Option.isSome_iff_exists.mp (walk_subgraph_keys inner es t htO)
  have htxs : t ≠ xs := fun hc => hxO (hc ▸ htO)
  have htkeys : t ∈ nodeKeys inner.nodes :=
    (lookup_isSome_iff inner.nodes t).mp (by simp [hnA])
  have htns : t ≠ ns := fun hc => hnsk (hc ▸ htkeys)
  have htS1 : List.lookup t (startCrumbStage (graftMapping inner es xs ns) es label (spliceEntry (clone_subgraph inner es).body xs ns (clone_subgraph inner es).mapping).1.nodes) = some nA := by
    rw [startCrumbStage_frame _ _ _ _ hmpx htxs, hS0frame t htxs htns,
      clone_subgraph_lookup_old inner es t htkeys]
    exact hnA
  have hedm := enDefaultMapOf_lookup (graftMapping inner es xs ns)
    (startCrumbStage (graftMapping inner es xs ns) es label (spliceEntry (clone_subgraph inner es).body xs ns (clone_subgraph inner es).mapping).1.nodes) (lookup_mem hu) htS1
  have hmid : ∃ nd1, List.lookup u (startCrumbStage (graftMapping inner es xs ns) es label (spliceEntry (clone_subgraph inner es).body xs ns (clone_subgraph inner es).mapping).1.nodes) = some nd1 ∧
      nd1.template_id = nA.template_id ∧
      nd1.next = (rewriteRefs (cloneZip inner es) nA).next := by
    by_cases hu0 : u0 = ns
    · have ht_es : t = es := cloneZip_val_unique (hu0 ▸ lookup_mem hz0) (lookup_mem hzs)
      have hAsn : nA = sn := by
        rw [ht_es] at hnA
        have h2 := hnA.symm.trans hsn
        injection h2
      have hueqx : u = xs := by rw [hueq, if_pos hu0]
      have hstf := startCrumbStage_structEq (graftMapping inner es xs ns) es label
        (spliceEntry (clone_subgraph inner es).body xs ns (clone_subgraph inner es).mapping).1.nodes
      have h3 := hstf xs
      rw [hnd0] at h3
      cases hS1x : List.lookup xs (startCrumbStage (graftMapping inner es xs ns) es label (spliceEntry (clone_subgraph inner es).body xs ns (clone_subgraph inner es).mapping).1.nodes) with
      | none =>
        rw [hS1x] at h3
        exact absurd h3 (by simp [structEq])
      | some nd1 =>
        rw [hS1x] at h3
        refine ⟨nd1, by rw [hueqx]; exact hS1x, ?_, ?_⟩
        · rw [← h3.2.1, hnd0tid, hAsn]
        · rw [← h3.2.2, hnd0next, hAsn]
    · have hueq2 : u = u0 := by rw [hueq, if_neg hu0]
      have hu0fresh : ¬ u0 ∈ nodeKeys inner.nodes := cloneZip_val_fresh (lookup_mem hz0)
      have hu0xs : u0 ≠ xs := fun hc => hu0fresh (hc ▸ hxkeys)
      have hCB : List.lookup u0 (clone_subgraph inner es).body.nodes =
          some (rewriteRefs (cloneZip inner es) { nA with id := u0 }) :=
        clone_subgraph_lookup_new inner es (lookup_mem hz0) hnA
      refine ⟨rewriteRefs (cloneZip inner es) { nA with id := u0 }, ?_, ?_, ?_⟩
      · rw [hueq2, startCrumbStage_frame _ _ _ _ hmpx hu0xs, hS0frame u0 hu0xs hu0]
        exact hCB
      · exact rewriteRefs_tid (cloneZip inner es) { nA with id := u0 }
      · exact rewriteRefs_next_id (cloneZip inner es) nA u0
  obtain ⟨nd1, hnd1, hnd1tid, hnd1next⟩ := hmid
  have hstep : List.lookup u
      (forceCorrectStage (graftMapping inner es xs ns) es (startCrumbStage (graftMapping inner es xs ns) es label (spliceEntry (clone_subgraph inner es).body xs ns (clone_subgraph inner es).mapping).1.nodes)) =
      List.lookup u
        (forceCorrectStep (graftMapping inner es xs ns) es
          (enDefaultMapOf (graftMapping inner es xs ns) (startCrumbStage (graftMapping inner es xs ns) es label (spliceEntry (clone_subgraph inner es).body xs ns (clone_subgraph inner es).mapping).1.nodes))
          (startCrumbStage (graftMapping inner es xs ns) es label (spliceEntry (clone_subgraph inner es).body xs ns (clone_subgraph inner es).mapping).1.nodes) t u) := by
    unfold forceCorrectStage
    exact forceCorrectGo_at (graftMapping inner es xs ns) es
      (enDefaultMapOf (graftMapping inner es xs ns) (startCrumbStage (graftMapping inner es xs ns) es label (spliceEntry (clone_subgraph inner es).body xs ns (clone_subgraph inner es).mapping).1.nodes))
      (graftMapping inner es xs ns) (startCrumbStage (graftMapping inner es xs ns) es label (spliceEntry (clone_subgraph inner es).body xs ns (clone_subgraph inner es).mapping).1.nodes) hvnd (t, u) (lookup_mem hu)
  by_cases hAth : nA.template_id = "thanks"
  · obtain ⟨hcondsA, hdefA⟩ := thanksTerminal_spec hth htO hnA hAth
    have hnd1th : nd1.template_id = "thanks" := by rw [hnd1tid]; exact hAth
    have hval := forceCorrectStep_thanks_value (graftMapping inner es xs ns) es
      (enDefaultMapOf (graftMapping inner es xs ns) (startCrumbStage (graftMapping inner es xs ns) es label (spliceEntry (clone_subgraph inner es).body xs ns (clone_subgraph inner es).mapping).1.nodes))
      (startCrumbStage (graftMapping inner es xs ns) es label (spliceEntry (clone_subgraph inner es).body xs ns (clone_subgraph inner es).mapping).1.nodes) t u hnd1 hnd1th
    refine ⟨nA, { nd1 with next := none }, hnA, by rw [hstep]; exact hval, hnd1tid, ?_, ?_⟩
    · have hBc : nextConds ({ nd1 with next := none } : Node) = [] := rfl
      rw [hcondsA, hBc]
      exact List.Forall₂.nil
    · have hBdn : nextDefault ({ nd1 with next := none } : Node) = none := rfl
      rw [hdefA, hBdn]
      exact trivial
  · have hnd1th : ¬ nd1.template_id = "thanks" := by rw [hnd1tid]; exact hAth
    obtain ⟨nx2, hval, hnx2c, hnx2d⟩ := forceCorrectStep_shape (graftMapping inner es xs ns)
      es (enDefaultMapOf (graftMapping inner es xs ns) (startCrumbStage (graftMapping inner es xs ns) es label (spliceEntry (clone_subgraph inner es).body xs ns (clone_subgraph inner es).mapping).1.nodes))
      (startCrumbStage (graftMapping inner es xs ns) es label (spliceEntry (clone_subgraph inner es).body xs ns (clone_subgraph inner es).mapping).1.nodes) t u hnd1 hnd1th
    have hjoin : (List.lookup t
        (enDefaultMapOf (graftMapping inner es xs ns) (startCrumbStage (graftMapping inner es xs ns) es label (spliceEntry (clone_subgraph inner es).body xs ns (clone_subgraph inner es).mapping).1.nodes))).join =
        nextDefault nA := by
      rw [hedm]
      rfl
    refine ⟨nA, { nd1 with next := some nx2 }, hnA, by rw [hstep]; exact hval, hnd1tid, ?_, ?_⟩
    · have hBc : nextConds ({ nd1 with next := some nx2 } : Node) = nx2.conditions := rfl
      rw [hBc, hnx2c, nextConds_congr hnd1next, rewriteRefs_conds]
      refine forall₂_map_pair ?_
      intro c hc
      cases hr : c.result with
      | none => exact trivial
      | some r =>
        have hrex : (List.lookup r inner.nodes).isSome = true :=
          noDangling_spec hnd htO hnA (mem_successors_cond hc hr)
        have hrO : r ∈ walk_subgraph inner es :=
          walk_closed inner es t htO nA hnA r (mem_successors_cond hc hr) hrex
        obtain ⟨ur, hur⟩ := lookup_cloneZip_of_mem inner es hrO
        show graftRelOpt _ es ns _ (some r)
          (some ((List.lookup r (cloneZip inner es)).getD r))
        rw [hur]
        refine ⟨hrO, ?_⟩
        by_cases hurns : ur = ns
        · exact Or.inr ⟨cloneZip_val_unique (hurns ▸ lookup_mem hur) (lookup_mem hzs),
            by rw [Option.getD_some, hurns]⟩
        · refine Or.inl ?_
          rw [graftMapping_lookup, hur]
          simp [hurns]
    · have hBd : nextDefault ({ nd1 with next := some nx2 } : Node) = nx2.default := rfl
      rw [hBd, hnx2d, hjoin]
      cases hdA : nextDefault nA with
      | none =>
        have hBdn : nextDefault nd1 = none := by
          rw [nextDefault_congr hnd1next, rewriteRefs_default, hdA]
          rfl
        rw [hBdn]
        exact trivial
      | some d =>
        have hdex : (List.lookup d inner.nodes).isSome = true :=
          noDangling_spec hnd htO hnA (mem_successors_default hdA)
        have hdO : d ∈ walk_subgraph inner es :=
          walk_closed inner es t htO nA hnA d (mem_successors_default hdA) hdex
        obtain ⟨ud, hud⟩ := lookup_cloneZip_of_mem inner es hdO
        have hdmp : List.lookup d (graftMapping inner es xs ns) =
            some (if ud = ns then xs else ud) := by
          rw [graftMapping_lookup, hud]
          rfl
        simp only [hdmp]
        exact ⟨hdO, Or.inl hdmp⟩

theorem walkAux_structEq {A B : List (String × Node)} (h : nodesStructEq A B) :
    ∀ (fuel : Nat) (order : List String) (pending : List (Option String)),
      walkAux A fuel order pending = walkAux B fuel order pending := by
  intro fuel
  induction fuel with
  | zero => intro order pending; rw [walkAux_zero, walkAux_zero]
  | succ fuel ih =>
    intro order pending
    match pending with
    | [] => rw [walkAux_nil, walkAux_nil]
    | none :: rest =>
      rw [walkAux_none_step, walkAux_none_step]
      exact ih order rest
    | some x :: rest =>
      rw [walkAux_some_step, walkAux_some_step]
      by_cases hx : x ∈ order
      · simp only [hx, if_true]
        exact ih order rest
      · simp only [hx, if_false]
        have hsx := h x
        cases hlA : List.lookup x A with
        | none =>
          cases hlB : List.lookup x B with
          | none => exact ih order rest
          | some nB =>
            rw [hlA, hlB] at hsx
            exact absurd hsx (by simp [structEq])
        | some nA =>
          cases hlB : List.lookup x B with
          | none =>
            rw [hlA, hlB] at hsx
            exact absurd hsx (by simp [structEq])
          | some nB =>
            rw [hlA, hlB] at hsx
            have hsucc : successors nA = successors nB := by
              unfold successors
              rw [nextConds_congr hsx.2.2, nextDefault_congr hsx.2.2]
            show walkAux A fuel (order ++ [x]) (successors nA ++ rest) =
              walkAux B fuel (order ++ [x]) (successors nB ++ rest)
            rw [hsucc]
            exact ih (order ++ [x]) (successors nB ++ rest)

theorem sigEntries_structEq {A B : List (String × Node)} (h : nodesStructEq A B) :
    ∀ order : List String, sigEntries A order = sigEntries B order := by
  intro order
  induction order with
  | nil => rfl
  | cons nid rest ih =>
    have hsx := h nid
    cases hlA : List.lookup nid A with
    | none =>
      cases hlB : List.lookup nid B with
      | none => simp only [sigEntries, hlA, hlB]
      | some nB =>
        rw [hlA, hlB] at hsx
        exact absurd hsx (by simp [structEq])
    | some nA =>
      cases hlB : List.lookup nid B with
      | none =>
        rw [hlA, hlB] at hsx
        exact absurd hsx (by simp [structEq])
      | some nB =>
        rw [hlA, hlB] at hsx
        simp only [sigEntries, hlA, hlB, ih, hsx.2.1, nextConds_congr hsx.2.2,
          nextDefault_congr hsx.2.2]

theorem walkSim (A B : List (String × Node)) (O : List String) (s ns : String)
    (mp : List (String × String))
    (HBns : List.lookup ns B = none)
    (Hval : ∀ t u, List.lookup t mp = some u → u ≠ ns)
    (Hvnd : (mp.map Prod.snd).Nodup)
    (G4 : ∀ t ∈ O, ∀ u, List.lookup t mp = some u →
      ∃ nA nB, List.lookup t A = some nA ∧ List.lookup u B = some nB ∧
        nB.template_id = nA.template_id ∧
        List.Forall₂ (graftRelOpt O s ns mp)
          ((nextConds nA).map (fun c => c.result))
          ((nextConds nB).map (fun c => c.result)) ∧
        graftRelOpt O s ns mp (nextDefault nA) (nextDefault nB)) :
    ∀ (fuel : Nat) (orderT orderB : List String) (pendT pendB : List (Option String)),
      List.Forall₂ (fun t u => t ∈ O ∧ List.lookup t mp = some u) orderT orderB →
      s ∈ orderT →
      List.Forall₂ (graftRelOpt O s ns mp) pendT pendB →
      List.Forall₂ (fun t u => t ∈ O ∧ List.lookup t mp = some u)
        (walkAux A fuel orderT pendT) (walkAux B fuel orderB pendB) := by
  intro fuel
  induction fuel with
  | zero =>
    intro orderT orderB pendT pendB horder hsmem hpend
    rw [walkAux_zero, walkAux_zero]
    exact horder
  | succ fuel ih =>
    intro orderT orderB pendT pendB horder hsmem hpend
    cases hpend with
    | nil =>
      rw [walkAux_nil, walkAux_nil]
      exact horder
    | @cons p q pT2 pB2 hhead htail =>
      match p, q, hhead with
      | none, none, _ =>
        rw [walkAux_none_step, walkAux_none_step]
        exact ih orderT orderB pT2 pB2 horder hsmem htail
      | none, some u, hh => exact absurd hh (by simp [graftRelOpt])
      | some t, none, hh => exact absurd hh (by simp [graftRelOpt])
      | some t, some u, hh =>
        obtain ⟨htO, hcase⟩ := hh
        rw [walkAux_some_step, walkAux_some_step]
        rcases hcase with hmp | hsns
        · by_cases htm : t ∈ orderT
          · have hum : u ∈ orderB := by
              obtain ⟨u2, hu2mem, hu2rel⟩ := forall₂_mem_left horder htm
              have he : u2 = u := by
                have h2 := hu2rel.2
                rw [hmp] at h2
                injection h2 with h2
                exact h2.symm
              exact he ▸ hu2mem
            simp only [htm, hum, if_true]
            exact ih orderT orderB pT2 pB2 horder hsmem htail
          · have hum : ¬ u ∈ orderB := by
              intro hum
              obtain ⟨t2, ht2mem, ht2rel⟩ := forall₂_mem_right horder hum
              have he : t2 = t :=
                snd_nodup_inj Hvnd (lookup_mem ht2rel.2) (lookup_mem hmp)
              exact htm (he ▸ ht2mem)
            simp only [htm, hum, if_false]
            obtain ⟨nA, nB, hnA, hnB, htid, hcs, hds⟩ := G4 t htO u hmp
            rw [hnA, hnB]
            refine ih (orderT ++ [t]) (orderB ++ [u])
              (successors nA ++ pT2) (successors nB ++ pB2) ?_ ?_ ?_
            · exact List.rel_append horder
                (List.Forall₂.cons ⟨htO, hmp⟩ List.Forall₂.nil)
            · exact List.mem_append.mpr (Or.inl hsmem)
            · have hsA : successors nA =
                  (nextConds nA).map (fun c => c.result) ++ [nextDefault nA] := rfl
              have hsB : successors nB =
                  (nextConds nB).map (fun c => c.result) ++ [nextDefault nB] := rfl
              rw [hsA, hsB]
              exact List.rel_append
                (List.rel_append hcs (List.Forall₂.cons hds List.Forall₂.nil)) htail
        · obtain ⟨hts, huns⟩ := hsns
          subst hts
          subst huns
          have hum : ¬ u ∈ orderB := by
            intro hum
            obtain ⟨t2, _, ht2rel⟩ := forall₂_mem_right horder hum
            exact Hval t2 u ht2rel.2 rfl
          simp only [hsmem, hum, if_true, if_false]
          rw [HBns]
          exact ih orderT orderB pT2 pB2 horder hsmem htail

theorem sigSim (A B : List (String × Node)) (O : List String) (s ns : String)
    (mp : List (String × String))
    (G4 : ∀ t ∈ O, ∀ u, List.lookup t mp = some u →
      ∃ nA nB, List.lookup t A = some nA ∧ List.lookup u B = some nB ∧
        nB.template_id = nA.template_id ∧
        List.Forall₂ (graftRelOpt O s ns mp)
          ((nextConds nA).map (fun c => c.result))
          ((nextConds nB).map (fun c => c.result)) ∧
        graftRelOpt O s ns mp (nextDefault nA) (nextDefault nB)) :
    ∀ (lT : List String) (lB : List String),
      List.Forall₂ (fun t u => t ∈ O ∧ List.lookup t mp = some u) lT lB →
      ∃ e, sigEntries A lT = some e ∧ sigEntries B lB = some e := by
  intro lT lB h
  induction h with
  | nil => exact ⟨[], rfl, rfl⟩
  | cons hab htl ih =>
    obtain ⟨e, heT, heB⟩ := ih
    obtain ⟨nA, nB, hnA, hnB, htid, hcs, hds⟩ := G4 _ hab.1 _ hab.2
    have hlen : (nextConds nB).length = (nextConds nA).length := by
      have h2 := List.Forall₂.length_eq hcs
      simpa using h2.symm
    have hdef : (nextDefault nB).isSome = (nextDefault nA).isSome := by
      cases hA : nextDefault nA with
      | none =>
        cases hB : nextDefault nB with
        | none => rfl
        | some d =>
          rw [hA, hB] at hds
          exact absurd hds (by simp [graftRelOpt])
      | some d =>
        cases hB : nextDefault nB with
        | none =>
          rw [hA, hB] at hds
          exact absurd hds (by simp [graftRelOpt])
        | some d2 => rfl
    refine ⟨(nA.template_id,
      ((nextConds nA).length, if (nextDefault nA).isSome then 1 else 0)) :: e, ?_, ?_⟩
    · simp only [sigEntries, hnA, heT]
    · simp only [sigEntries, hnB, heB, htid, hlen, hdef]

theorem structEq_lookup_some {a b : List (String × Node)} (h : nodesStructEq a b)
    {k : String} {n : Node} (hl : List.lookup k a = some n) :
    ∃ m, List.lookup k b = some m ∧ m.id = n.id ∧ m.template_id = n.template_id ∧
      m.next = n.next := by
  have h2 := h k
  rw [hl] at h2
  cases hb : List.lookup k b with
  | none =>
    rw [hb] at h2
    exact absurd h2 (by simp [structEq])
  | some m =>
    rw [hb] at h2
    exact ⟨m, rfl, h2.1.symm, h2.2.1.symm, h2.2.2.symm⟩

theorem forceCorrectStep_keeps (mapping : List (String × String)) (tsid : String)
    (edm : List (String × Option String)) (nodes : List (String × Node))
    (o v : String) {nd : Node} (hnd : List.lookup v nodes = some nd) :
    ∃ nd2, List.lookup v (forceCorrectStep mapping tsid edm nodes o v) = some nd2 ∧
      nd2.id = nd.id := by
  by_cases hth : nd.template_id = "thanks"
  · exact ⟨_, forceCorrectStep_thanks_value mapping tsid edm nodes o v hnd hth, rfl⟩
  · obtain ⟨nx2, hval, h1, h2⟩ := forceCorrectStep_shape mapping tsid edm nodes o v hnd hth
    exact ⟨_, hval, rfl⟩

theorem graftMapping_mem_val {inner : InnerBody} {es xs ns : String} {q : String × String}
    (hq : q ∈ graftMapping inner es xs ns) :
    q.2 = xs ∨ ¬ q.2 ∈ nodeKeys inner.nodes := by
  obtain ⟨q0, hq0, hqeq⟩ := List.mem_map.mp hq
  by_cases h0 : q0.2 = ns
  · left
    rw [← hqeq]
    simp [h0]
  · right
    rw [← hqeq]
    show ¬ (if q0.2 = ns then xs else q0.2) ∈ nodeKeys inner.nodes
    rw [if_neg h0]
    exact cloneZip_val_fresh (show (q0.1, q0.2) ∈ cloneZip inner es from hq0)

/-- Claim C7: grafting preserves the branch entry's externally visible
identity: the pre-existing entry key still resolves and its node keeps the
pre-existing id field, and every other pre-existing node of the document
keeps its id, its template tag and its entire routing dictionary (in
particular the choice page's conditions are not edited). -/
theorem claim_C7 (inner : InnerBody) (es xs label : String) (tr : Node → String)
    {g : GraftResult} (hg : graft_branch inner es xs label tr = some g)
    {xnode : Node} (hx : List.lookup xs inner.nodes = some xnode) :
    (∃ nd, List.lookup xs g.body.nodes = some nd ∧ nd.id = xnode.id) ∧
    (∀ k, k ∈ nodeKeys inner.nodes → k ≠ xs →
      ∀ kn, List.lookup k inner.nodes = some kn →
        ∃ kn2, List.lookup k g.body.nodes = some kn2 ∧
          kn2.id = kn.id ∧ kn2.template_id = kn.template_id ∧ kn2.next = kn.next) := by
  obtain ⟨ns, hns, hmap, hbody⟩ := graft_branch_unfold inner es xs label tr hg
  have hzs : List.lookup es (cloneZip inner es) = some ns :=
    (clone_subgraph_newStart inner es).symm.trans hns
  have hes_mem : es ∈ walk_subgraph inner es := cloneZip_keys_mem (lookup_mem hzs)
  obtain ⟨sn, hsn⟩ := Option.isSome_iff_exists.mp (walk_subgraph_keys inner es es hes_mem)
  obtain ⟨hmp2, ⟨nd0, hnd0, hnd0id, hnd0tid, hnd0next⟩, hnsS0, hS0frame⟩ :=
    graft_S0_facts inner es xs ns hx hsn hzs
  have hgm : g.mapping = graftMapping inner es xs ns := hmap.trans hmp2
  have hxkeys : xs ∈ nodeKeys inner.nodes :=
    (lookup_isSome_iff inner.nodes xs).mp (by simp [hx])
  have hnsk : ¬ ns ∈ nodeKeys inner.nodes := cloneZip_val_fresh (lookup_mem hzs)
  have hmpx : List.lookup es (graftMapping inner es xs ns) = some xs :=
    graftMapping_start inner es xs ns hzs
  have hvnd := graftMapping_vals_nodup inner es xs ns hxkeys
  rw [hgm] at hbody
  obtain ⟨nd1, hnd1, hnd1id, hnd1tid, hnd1next⟩ := structEq_lookup_some
    (startCrumbStage_structEq (graftMapping inner es xs ns) es label
      (spliceEntry (clone_subgraph inner es).body xs ns (clone_subgraph inner es).mapping).1.nodes) hnd0
  have hSE : nodesStructEq
      (forceCorrectStage (graftMapping inner es xs ns) es (startCrumbStage (graftMapping inner es xs ns) es label (spliceEntry (clone_subgraph inner es).body xs ns (clone_subgraph inner es).mapping).1.nodes))
      g.body.nodes := by
    rw [hbody]
    exact nodesStructEq_trans
      (visitreasonStage_structEq (graftMapping inner es xs ns) label _)
      (translateNodes_structEq tr (graftMapping inner es xs ns) _)
  constructor
  · have hstep : List.lookup xs
        (forceCorrectStage (graftMapping inner es xs ns) es (startCrumbStage (graftMapping inner es xs ns) es label (spliceEntry (clone_subgraph inner es).body xs ns (clone_subgraph inner es).mapping).1.nodes)) =
        List.lookup xs
          (forceCorrectStep (graftMapping inner es xs ns) es (enDefaultMapOf (graftMapping inner es xs ns) (startCrumbStage (graftMapping inner es xs ns) es label (spliceEntry (clone_subgraph inner es).body xs ns (clone_subgraph inner es).mapping).1.nodes)) (startCrumbStage (graftMapping inner es xs ns) es label (spliceEntry (clone_subgraph inner es).body xs ns (clone_subgraph inner es).mapping).1.nodes) es xs) := by
      unfold forceCorrectStage
      exact forceCorrectGo_at (graftMapping inner es xs ns) es (enDefaultMapOf (graftMapping inner es xs ns) (startCrumbStage (graftMapping inner es xs ns) es label (spliceEntry (clone_subgraph inner es).body xs ns (clone_subgraph inner es).mapping).1.nodes))
        (graftMapping inner es xs ns) (startCrumbStage (graftMapping inner es xs ns) es label (spliceEntry (clone_subgraph inner es).body xs ns (clone_subgraph inner es).mapping).1.nodes) hvnd (es, xs) (lookup_mem hmpx)
    obtain ⟨nd2, hnd2, hnd2id⟩ := forceCorrectStep_keeps (graftMapping inner es xs ns)
      es (enDefaultMapOf (graftMapping inner es xs ns) (startCrumbStage (graftMapping inner es xs ns) es label (spliceEntry (clone_subgraph inner es).body xs ns (clone_subgraph inner es).mapping).1.nodes)) (startCrumbStage (graftMapping inner es xs ns) es label (spliceEntry (clone_subgraph inner es).body xs ns (clone_subgraph inner es).mapping).1.nodes) es xs hnd1
    obtain ⟨nd3, hnd3, hnd3id, h9, h10⟩ := structEq_lookup_some hSE
      (by rw [hstep]; exact hnd2)
    exact ⟨nd3, hnd3, by rw [hnd3id, hnd2id, hnd1id, hnd0id]⟩
  · intro k hk hkx kn hkn
    have hkns : k ≠ ns := fun hc => hnsk (hc ▸ hk)
    have hkS1 : List.lookup k (startCrumbStage (graftMapping inner es xs ns) es label (spliceEntry (clone_subgraph inner es).body xs ns (clone_subgraph inner es).mapping).1.nodes) = some kn := by
      rw [startCrumbStage_frame _ _ _ _ hmpx hkx, hS0frame k hkx hkns,
        clone_subgraph_lookup_old inner es k hk]
      exact hkn
    have hqprf : ∀ q ∈ graftMapping inner es xs ns, ¬ q.2 = k := by
      intro q hq hc
      rcases graftMapping_mem_val hq with h1 | h1
      · exact hkx (by rw [← hc]; exact h1)
      · exact h1 (by rw [hc]; exact hk)
    have hkS2 : List.lookup k
        (forceCorrectStage (graftMapping inner es xs ns) es (startCrumbStage (graftMapping inner es xs ns) es label (spliceEntry (clone_subgraph inner es).body xs ns (clone_subgraph inner es).mapping).1.nodes)) = some kn := by
      unfold forceCorrectStage
      rw [forceCorrectGo_frame (graftMapping inner es xs ns) es (enDefaultMapOf (graftMapping inner es xs ns) (startCrumbStage (graftMapping inner es xs ns) es label (spliceEntry (clone_subgraph inner es).body xs ns (clone_subgraph inner es).mapping).1.nodes))
        (graftMapping inner es xs ns) (startCrumbStage (graftMapping inner es xs ns) es label (spliceEntry (clone_subgraph inner es).body xs ns (clone_subgraph inner es).mapping).1.nodes) k hqprf]
      exact hkS1
    obtain ⟨kn2, hkn2, hkid, hktid, hknext⟩ := structEq_lookup_some hSE hkS2
    exact ⟨kn2, hkn2, hkid, hktid, hknext⟩

/-- Witness for claim C7 on the concrete graft of docGood onto entry 5. -/
theorem claim_C7_witness :
    (∃ nd, List.lookup "5" ((graft_branch docGood "2" "5" "French"
        (fun n => n.other)).get (by decide)).body.nodes = some nd ∧
      nd.id = "5") ∧
    (∀ k, k ∈ nodeKeys docGood.nodes → k ≠ "5" →
      ∀ kn, List.lookup k docGood.nodes = some kn →
        ∃ kn2, List.lookup k ((graft_branch docGood "2" "5" "French"
            (fun n => n.other)).get (by decide)).body.nodes = some kn2 ∧
          kn2.id = kn.id ∧ kn2.template_id = kn.template_id ∧ kn2.next = kn.next) := by
  have hg : graft_branch docGood "2" "5" "French" (fun n => n.other) =
      some ((graft_branch docGood "2" "5" "French" (fun n => n.other)).get (by decide)) :=
    (Option.some_get (by decide)).symm
  exact claim_C7 docGood "2" "5" "French" (fun n => n.other) hg
    (show List.lookup "5" docGood.nodes = some (mkNode "5" "stale" (some ⟨[], some "3"⟩))
      by decide)

theorem propagateCrumbAux_seen_frame (mappedVals : List String) (cv : String) :
    ∀ (fuel : Nat) (nodes : List (String × Node)) (seen stack : List String)
      (k : String), k ∈ seen →
      List.lookup k (propagateCrumbAux mappedVals cv fuel nodes seen stack).1 =
        List.lookup k nodes := by
  intro fuel
  induction fuel with
  | zero => intro nodes seen stack k hk; rfl
  | succ fuel ih =>
    intro nodes seen stack k hk
    match stack with
    | [] => rfl
    | nid :: rest =>
      simp only [propagateCrumbAux]
      by_cases hs : nid ∈ seen ∨ ¬ nid ∈ mappedVals
      · simp only [hs, if_true]
        exact ih nodes seen rest k hk
      · simp only [hs, if_false]
        cases hl : List.lookup nid nodes with
        | none => exact ih nodes seen rest k hk
        | some n =>
          have hnid : ¬ nid ∈ seen := fun hc => hs (Or.inl hc)
          have hkne : k ≠ nid := fun hc => hnid (hc ▸ hk)
          by_cases hv : n.template_id = "visitreason"
          · simp only [hv, if_true]
            exact ih nodes (nid :: seen) _ k (by simp [hk])
          · simp only [hv, if_false]
            by_cases hc : n.crumb = none ∨ n.crumb = some ""
            · simp only [hc, if_true]
              rw [ih _ (nid :: seen) _ k (by simp [hk])]
              exact lookup_setNode_ne nodes _ hkne
            · simp only [hc, if_false]
              exact ih nodes (nid :: seen) _ k (by simp [hk])

theorem propagateCrumbAux_preserve (mappedVals : List String) (cv : String) :
    ∀ (fuel : Nat) (nodes : List (String × Node)) (seen stack : List String)
      (k : String) (n : Node), List.lookup k nodes = some n →
      ¬ (n.crumb = none ∨ n.crumb = some "") →
      List.lookup k (propagateCrumbAux mappedVals cv fuel nodes seen stack).1 = some n := by
  intro fuel
  induction fuel with
  | zero => intro nodes seen stack k n hk hcr; exact hk
  | succ fuel ih =>
    intro nodes seen stack k n hk hcr
    match stack with
    | [] => exact hk
    | nid :: rest =>
      simp only [propagateCrumbAux]
      by_cases hs : nid ∈ seen ∨ ¬ nid ∈ mappedVals
      · simp only [hs, if_true]
        exact ih nodes seen rest k n hk hcr
      · simp only [hs, if_false]
        cases hl : List.lookup nid nodes with
        | none => exact ih nodes seen rest k n hk hcr
        | some n2 =>
          by_cases hv : n2.template_id = "visitreason"
          · simp only [hv, if_true]
            exact ih nodes _ _ k n hk hcr
          · simp only [hv, if_false]
            by_cases hc : n2.crumb = none ∨ n2.crumb = some ""
            · simp only [hc, if_true]
              refine ih _ _ _ k n ?_ hcr
              by_cases hkn : k = nid
              · subst hkn
                have hnn : n = n2 := by
                  rw [hk] at hl
                  injection hl with h2
                exact absurd (hnn.symm ▸ hc) hcr
              · rw [lookup_setNode_ne nodes _ hkn]
                exact hk
            · simp only [hc, if_false]
              exact ih nodes _ _ k n hk hcr

theorem propagateCrumbAux_sets (mappedVals : List String) (cv : String) :
    ∀ (fuel : Nat) (nodes : List (String × Node)) (seen stack : List String)
      (k : String) (n : Node), List.lookup k nodes = some n →
      ¬ k ∈ seen →
      k ∈ (propagateCrumbAux mappedVals cv fuel nodes seen stack).2 →
      ¬ n.template_id = "visitreason" →
      (n.crumb = none ∨ n.crumb = some "") →
      List.lookup k (propagateCrumbAux mappedVals cv fuel nodes seen stack).1 =
        some { n with crumb := some cv } := by
  intro fuel
  induction fuel with
  | zero =>
    intro nodes seen stack k n hk hks hkres hv hc
    exact absurd hkres hks
  | succ fuel ih =>
    intro nodes seen stack k n hk hks hkres hv hc
    match stack with
    | [] => exact absurd hkres hks
    | nid :: rest =>
      simp only [propagateCrumbAux] at hkres ⊢
      by_cases hs : nid ∈ seen ∨ ¬ nid ∈ mappedVals
      · simp only [hs, if_true] at hkres ⊢
        exact ih nodes seen rest k n hk hks hkres hv hc
      · simp only [hs, if_false] at hkres ⊢
        cases hl : List.lookup nid nodes with
        | none =>
          rw [hl] at hkres
          exact ih nodes seen rest k n hk hks hkres hv hc
        | some n2 =>
          rw [hl] at hkres
          by_cases hkn : k = nid
          · subst hkn
            have hnn : n2 = n := by
              rw [hk] at hl
              injection hl with h2
              exact h2.symm
            simp only [hnn, hv, if_false, hc, if_true] at hkres ⊢
            rw [propagateCrumbAux_seen_frame mappedVals cv fuel _ (k :: seen) _ k (by simp)]
            exact lookup_setNode_self nodes k _
          · have hks2 : ¬ k ∈ nid :: seen := by
              intro hm
              rcases List.mem_cons.mp hm with h | h
              · exact hkn h
              · exact hks h
            by_cases hv2 : n2.template_id = "visitreason"
            · simp only [hv2, if_true] at hkres ⊢
              exact ih nodes (nid :: seen) _ k n hk hks2 hkres hv hc
            · simp only [hv2, if_false] at hkres ⊢
              by_cases hc2 : n2.crumb = none ∨ n2.crumb = some ""
              · simp only [hc2, if_true] at hkres ⊢
                refine ih _ (nid :: seen) _ k n ?_ hks2 hkres hv hc
                rw [lookup_setNode_ne nodes _ hkn]
                exact hk
              · simp only [hc2, if_false] at hkres ⊢
                exact ih nodes (nid :: seen) _ k n hk hks2 hkres hv hc

/-- Counterexample to claim C5 as stated: grafting the docCrumb template as
a French branch onto entry 9 maps template node 4 — the node reached
through the sub-choice node's default edge — to node 12, and node 12's
crumb stays Old instead of receiving the branch's own selection label
French. -/
theorem claim_C5_counterexample :
    List.lookup "4" ((graft_branch docCrumb "2" "9" "French"
      (fun n => n.other)).get (by decide)).mapping = some "12" ∧
    (List.lookup "12" ((graft_branch docCrumb "2" "9" "French"
      (fun n => n.other)).get (by decide)).body.nodes).map (fun n => n.crumb) =
      some (some "Old") := by
  decide

/-- Claim C5 as amended: the worklist propagation itself never overwrites a
truthy crumb — any node whose crumb is neither null nor empty keeps its
exact node value — and a non-sub-choice node with a null or empty crumb
that the propagation visits (it ends up in the seen set) gets exactly the
propagated value as its crumb.  Nodes that already carry a crumb therefore
do not receive the propagated label, and separately from this worklist the
direct condition-target assignment of the visitreason pass can still
overwrite existing crumbs. -/
theorem claim_C5_amended (mapping : List (String × String)) (cv : String)
    (nodes : List (String × Node)) (fromId : String) (k : String) (n : Node)
    (hk : List.lookup k nodes = some n) :
    (¬ (n.crumb = none ∨ n.crumb = some "") →
      List.lookup k (propagate_crumb mapping cv nodes fromId).1 = some n) ∧
    ((n.crumb = none ∨ n.crumb = some "") → ¬ n.template_id = "visitreason" →
      k ∈ (propagate_crumb mapping cv nodes fromId).2 →
      List.lookup k (propagate_crumb mapping cv nodes fromId).1 =
        some { n with crumb := some cv }) := by
  constructor
  · intro hcr
    exact propagateCrumbAux_preserve (mapping.map Prod.snd) cv (propFuel nodes)
      nodes [] [fromId] k n hk hcr
  · intro hc hv hkres
    exact propagateCrumbAux_sets (mapping.map Prod.snd) cv (propFuel nodes)
      nodes [] [fromId] k n hk (by simp) hkres hv hc

/-- Witness for claim C5 as amended at a concrete two-node propagation. -/
theorem claim_C5_amended_witness :
    (¬ ((mkNode "2" "welcome" none).crumb = none ∨
        (mkNode "2" "welcome" none).crumb = some "") →
      List.lookup "2" (propagate_crumb [("a", "1"), ("b", "2")] "French"
        [("1", mkNode "1" "welcome" (some ⟨[], some "2"⟩)),
         ("2", mkNode "2" "welcome" none)] "1").1 = some (mkNode "2" "welcome" none)) ∧
    (((mkNode "2" "welcome" none).crumb = none ∨
        (mkNode "2" "welcome" none).crumb = some "") →
      ¬ (mkNode "2" "welcome" none).template_id = "visitreason" →
      "2" ∈ (propagate_crumb [("a", "1"), ("b", "2")] "French"
        [("1", mkNode "1" "welcome" (some ⟨[], some "2"⟩)),
         ("2", mkNode "2" "welcome" none)] "1").2 →
      List.lookup "2" (propagate_crumb [("a", "1"), ("b", "2")] "French"
        [("1", mkNode "1" "welcome" (some ⟨[], some "2"⟩)),
         ("2", mkNode "2" "welcome" none)] "1").1 =
        some ({ mkNode "2" "welcome" none with crumb := some "French" } : Node)) :=
  claim_C5_amended [("a", "1"), ("b", "2")] "French"
    [("1", mkNode "1" "welcome" (some ⟨[], some "2"⟩)),
     ("2", mkNode "2" "welcome" none)] "1" "2" (mkNode "2" "welcome" none) (by decide)

theorem walkPhi_init (nodes : List (String × Node)) (x : String) :
    walkPhi nodes [] [some x] = walkFuel nodes := by
  simp [walkPhi, walkFuel]
  omega

/-- Counterexample to claim C1 as stated: the docThanksNext template's
thanks-tagged entry still has an outgoing default edge, grafting forces
next = null on its copy, and the grafted branch's shape signature differs
from the template's. -/
theorem claim_C1_counterexample :
    computeShapeSignature ((graft_branch docThanksNext "2" "5" "Spanish"
      (fun n => n.other)).get (by decide)).body "5" ≠
    computeShapeSignature docThanksNext "2" := by
  decide

/-- Claim C1 as amended: for a well-formed template branch — no dangling
successor and terminal thanks nodes — whose subgraph does not contain the
pre-existing entry, the graft succeeds and recomputing the shape signature
from the pre-existing entry on the grafted document yields exactly the
template branch's shape signature. -/
theorem claim_C1_amended (inner : InnerBody) (es xs label : String) (tr : Node → String)
    {xnode : Node} (hx : List.lookup xs inner.nodes = some xnode)
    (hes : (List.lookup es inner.nodes).isSome = true)
    (hxO : ¬ xs ∈ walk_subgraph inner es)
    (hnd : noDangling inner.nodes (walk_subgraph inner es) = true)
    (hth : thanksTerminal inner.nodes (walk_subgraph inner es) = true) :
    ∃ g, graft_branch inner es xs label tr = some g ∧
      computeShapeSignature g.body xs = computeShapeSignature inner es := by
  have hsmem0 : es ∈ walk_subgraph inner es := start_mem_walk inner es hes
  obtain ⟨ns0, hzs0⟩ := lookup_cloneZip_of_mem inner es hsmem0
  cases hgb : graft_branch inner es xs label tr with
  | none =>
    exfalso
    cases hns0 : (clone_subgraph inner es).newStart with
    | some nz =>
      simp only [graft_branch, hns0] at hgb
      exact Option.noConfusion hgb
    | none =>
      have h2 : List.lookup es (cloneZip inner es) = none :=
        (clone_subgraph_newStart inner es).symm.trans hns0
      rw [hzs0] at h2
      cases h2
  | some g =>
    refine ⟨g, rfl, ?_⟩
    obtain ⟨ns, hns, hmap, hbody⟩ := graft_branch_unfold inner es xs label tr hgb
    have hzs : List.lookup es (cloneZip inner es) = some ns :=
      (clone_subgraph_newStart inner es).symm.trans hns
    have hsmem : es ∈ walk_subgraph inner es := cloneZip_keys_mem (lookup_mem hzs)
    obtain ⟨sn, hsn⟩ := Option.isSome_iff_exists.mp (walk_subgraph_keys inner es es hsmem)
    obtain ⟨hmp2, hxsplice, hnsS0, hS0frame⟩ := graft_S0_facts inner es xs ns hx hsn hzs
    have hgm : g.mapping = graftMapping inner es xs ns := hmap.trans hmp2
    have hxkeys : xs ∈ nodeKeys inner.nodes :=
      (lookup_isSome_iff inner.nodes xs).mp (by simp [hx])
    have hnsk : ¬ ns ∈ nodeKeys inner.nodes := cloneZip_val_fresh (lookup_mem hzs)
    have hxns : xs ≠ ns := fun hc => hnsk (hc ▸ hxkeys)
    have hmpx : List.lookup es (graftMapping inner es xs ns) = some xs :=
      graftMapping_start inner es xs ns hzs
    have hvnd := graftMapping_vals_nodup inner es xs ns hxkeys
    rw [hgm] at hbody
    have G4S2 := graft_S2_char inner es xs label hx hzs hxO hnd hth
    have hSE : nodesStructEq
        (forceCorrectStage (graftMapping inner es xs ns) es (startCrumbStage (graftMapping inner es xs ns) es label (spliceEntry (clone_subgraph inner es).body xs ns (clone_subgraph inner es).mapping).1.nodes))
        g.body.nodes := by
      rw [hbody]
      exact nodesStructEq_trans
        (visitreasonStage_structEq (graftMapping inner es xs ns) label _)
        (translateNodes_structEq tr (graftMapping inner es xs ns) _)
    have G4F : ∀ t ∈ walk_subgraph inner es, ∀ u,
        List.lookup t (graftMapping inner es xs ns) = some u →
        ∃ nA nB, List.lookup t inner.nodes = some nA ∧
          List.lookup u g.body.nodes = some nB ∧
          nB.template_id = nA.template_id ∧
          List.Forall₂
            (graftRelOpt (walk_subgraph inner es) es ns (graftMapping inner es xs ns))
            ((nextConds nA).map (fun c => c.result))
            ((nextConds nB).map (fun c => c.result)) ∧
          graftRelOpt (walk_subgraph inner es) es ns (graftMapping inner es xs ns)
            (nextDefault nA) (nextDefault nB) := by
      intro t htO u hu
      obtain ⟨nA, nB2, hnA, hnB2, htid, hcs, hds⟩ := G4S2 t htO u hu
      obtain ⟨nB, hnB, hid2, htid2, hnext2⟩ := structEq_lookup_some hSE hnB2
      refine ⟨nA, nB, hnA, hnB, by rw [htid2, htid], ?_, ?_⟩
      · rw [nextConds_congr hnext2]
        exact hcs
      · rw [nextDefault_congr hnext2]
        exact hds
    have hqns : ∀ q ∈ graftMapping inner es xs ns, ¬ q.2 = ns := by
      intro q hq hc
      obtain ⟨q0, hq0, hqeq⟩ := List.mem_map.mp hq
      rw [← hqeq] at hc
      have hc2 : (if q0.2 = ns then xs else q0.2) = ns := hc
      by_cases h0 : q0.2 = ns
      · rw [if_pos h0] at hc2
        exact hxns hc2
      · rw [if_neg h0] at hc2
        exact h0 hc2
    have hnsxs : ns ≠ xs := fun hc => hxns hc.symm
    have hnsS1 : List.lookup ns (startCrumbStage (graftMapping inner es xs ns) es label (spliceEntry (clone_subgraph inner es).body xs ns (clone_subgraph inner es).mapping).1.nodes) = none := by
      rw [startCrumbStage_frame _ _ _ _ hmpx hnsxs]
      exact hnsS0
    have hnsS2 : List.lookup ns
        (forceCorrectStage (graftMapping inner es xs ns) es (startCrumbStage (graftMapping inner es xs ns) es label (spliceEntry (clone_subgraph inner es).body xs ns (clone_subgraph inner es).mapping).1.nodes)) = none := by
      unfold forceCorrectStage
      rw [forceCorrectGo_frame (graftMapping inner es xs ns) es (enDefaultMapOf (graftMapping inner es xs ns) (startCrumbStage (graftMapping inner es xs ns) es label (spliceEntry (clone_subgraph inner es).body xs ns (clone_subgraph inner es).mapping).1.nodes))
        (graftMapping inner es xs ns) (startCrumbStage (graftMapping inner es xs ns) es label (spliceEntry (clone_subgraph inner es).body xs ns (clone_subgraph inner es).mapping).1.nodes) ns hqns]
      exact hnsS1
    have hBns : List.lookup ns g.body.nodes = none := by
      have h2 := hSE ns
      rw [hnsS2] at h2
      cases hb : List.lookup ns g.body.nodes with
      | none => rfl
      | some m =>
        rw [hb] at h2
        exact absurd h2 (by simp [structEq])
    have hVal : ∀ t u, List.lookup t (graftMapping inner es xs ns) = some u → u ≠ ns :=
      fun t u hu => graftMapping_val_ne_ns inner es xs ns hxns hu
    obtain ⟨snA, snB, hsnA, hsnB, hstid, hscs, hsds⟩ := G4F es hsmem xs hmpx
    have hpend0 : List.Forall₂
        (graftRelOpt (walk_subgraph inner es) es ns (graftMapping inner es xs ns))
        (successors snA) (successors snB) := by
      have e1 : successors snA =
          (nextConds snA).map (fun c => c.result) ++ [nextDefault snA] := rfl
      have e2 : successors snB =
          (nextConds snB).map (fun c => c.result) ++ [nextDefault snB] := rfl
      rw [e1, e2]
      exact List.rel_append hscs (List.Forall₂.cons hsds List.Forall₂.nil)
    have hphiA : walkPhi inner.nodes [] [some es] ≤ walkFuel inner.nodes :=
      le_of_eq (walkPhi_init inner.nodes es)
    have hphiA2 : walkPhi inner.nodes [] [some es] ≤ (max (walkFuel inner.nodes) (walkFuel g.body.nodes)) + 1 :=
      le_trans hphiA (le_trans (Nat.le_max_left _ _) (Nat.le_succ _))
    have hphiB : walkPhi g.body.nodes [] [some xs] ≤ walkFuel g.body.nodes :=
      le_of_eq (walkPhi_init g.body.nodes xs)
    have hphiB2 : walkPhi g.body.nodes [] [some xs] ≤ (max (walkFuel inner.nodes) (walkFuel g.body.nodes)) + 1 :=
      le_trans hphiB (le_trans (Nat.le_max_right _ _) (Nat.le_succ _))
    have hchainT : walk_subgraph inner es =
        walkAux inner.nodes (max (walkFuel inner.nodes) (walkFuel g.body.nodes)) ([] ++ [es]) (successors snA ++ []) := by
      show walkAux inner.nodes (walkFuel inner.nodes) [] [some es] = _
      rw [walkAux_stable inner.nodes (walkFuel inner.nodes) ((max (walkFuel inner.nodes) (walkFuel g.body.nodes)) + 1) [] [some es]
        hphiA hphiA2, walkAux_some_step, if_neg (by simp), hsnA]
    have hchainB : walk_subgraph g.body xs =
        walkAux g.body.nodes (max (walkFuel inner.nodes) (walkFuel g.body.nodes)) ([] ++ [xs]) (successors snB ++ []) := by
      show walkAux g.body.nodes (walkFuel g.body.nodes) [] [some xs] = _
      rw [walkAux_stable g.body.nodes (walkFuel g.body.nodes) ((max (walkFuel inner.nodes) (walkFuel g.body.nodes)) + 1) [] [some xs]
        hphiB hphiB2, walkAux_some_step, if_neg (by simp), hsnB]
    have hsim := walkSim inner.nodes g.body.nodes (walk_subgraph inner es) es ns
      (graftMapping inner es xs ns) hBns hVal hvnd G4F (max (walkFuel inner.nodes) (walkFuel g.body.nodes))
      ([] ++ [es]) ([] ++ [xs]) (successors snA ++ []) (successors snB ++ [])
      (List.Forall₂.cons ⟨hsmem, hmpx⟩ List.Forall₂.nil)
      (by simp)
      (List.rel_append hpend0 List.Forall₂.nil)
    obtain ⟨e, heT, heB⟩ := sigSim inner.nodes g.body.nodes (walk_subgraph inner es) es ns
      (graftMapping inner es xs ns) G4F _ _ hsim
    unfold computeShapeSignature
    rw [hchainB, hchainT, heT, heB]

/-- Witness for claim C1 as amended on the concrete graft of docGood onto
entry 5. -/
theorem claim_C1_amended_witness :
    ∃ g, graft_branch docGood "2" "5" "French" (fun n => n.other) = some g ∧
      computeShapeSignature g.body "5" = computeShapeSignature docGood "2" :=
  claim_C1_amended docGood "2" "5" "French" (fun n => n.other)
    (show List.lookup "5" docGood.nodes = some (mkNode "5" "stale" (some ⟨[], some "3"⟩))
      by decide)
    (by decide) (by decide) (by decide) (by decide)
